import Mathlib

/-!
Verification of the SQL-Editor core library against its specification.

Strings are modelled as lists of characters (type Str below). Each
definition is a shallow embedding of the corresponding TypeScript
function from the repository; doc comments name the source location.
JavaScript regular expressions are embedded by direct implementation of
their matching semantics on the concrete patterns used by the code.
-/

set_option maxHeartbeats 1000000

/-- Strings are modelled as lists of characters. -/
abbrev Str := List Char

/-! ## Variable handler (packages/core/src/parser/variable-handler.ts) -/

namespace VariableHandler

/-- Literal text of the constant PLACEHOLDER from variable-handler.ts,
the 14 characters dollar, open brace, the word placeholder, close brace. -/
def PLACEHOLDER : Str :=
  ['$', '\x7b', 'p', 'l', 'a', 'c', 'e', 'h', 'o', 'l', 'd', 'e', 'r', '\x7d']

/-- PLACEHOLDER followed by an underscore: the common prefix of every
synthetic token the escape step produces. -/
def phUnd : Str := PLACEHOLDER ++ ['_']

/-- Synthetic token for counter value n: PLACEHOLDER, underscore, then the
decimal digits of n (the template literal in escapeVariables). -/
def placeholderTok (n : Nat) : Str := phUnd ++ Nat.toDigits 10 n

/-- Literal source text of a variable occurrence with the given name:
dollar, open paren, name, close paren. -/
def varLit (name : Str) : Str := '$' :: '(' :: (name ++ [')'])

/-- Attempt of the regular expression pattern backslash-dollar,
backslash-open-paren, one or more non-close-paren characters,
backslash-close-paren at the head of the input. Returns the captured name
and the remaining input on success. -/
def varMatchAt : Str → Option (Str × Str)
  | '$' :: '(' :: rest =>
    match rest.dropWhile (fun c => c ≠ ')') with
    | ')' :: tail =>
      if (rest.takeWhile (fun c => c ≠ ')')).isEmpty then none
      else some (rest.takeWhile (fun c => c ≠ ')'), tail)
    | _ => none
  | _ => none

theorem varMatchAt_length {xs name rest : Str}
    (h : varMatchAt xs = some (name, rest)) :
    xs.length = name.length + rest.length + 3 := by
  unfold varMatchAt at h
  split at h
  · rename_i r
    split at h
    · rename_i tail hdrop
      split at h
      · simp at h
      · rename_i hne
        injection h with h'
        injection h' with h1 h2
        subst h1; subst h2
        have hsplit : r.takeWhile (fun c => c ≠ ')') ++ r.dropWhile (fun c => c ≠ ')') = r :=
          List.takeWhile_append_dropWhile _ r
        have hlen : (r.takeWhile (fun c => c ≠ ')')).length
            + (r.dropWhile (fun c => c ≠ ')')).length = r.length := by
          rw [← List.length_append, hsplit]
        rw [hdrop] at hlen
        simp only [List.length_cons] at hlen ⊢
        omega
    · simp at h
  · simp at h

theorem varMatchAt_rest_lt {xs name rest : Str}
    (h : varMatchAt xs = some (name, rest)) : rest.length < xs.length := by
  have := varMatchAt_length h
  omega

/-- On success, the consumed input is exactly the variable literal and the
captured name is nonempty. -/
theorem varMatchAt_spec {xs name rest : Str}
    (h : varMatchAt xs = some (name, rest)) :
    xs = varLit name ++ rest ∧ name ≠ [] := by
  unfold varMatchAt at h
  split at h
  · rename_i r
    split at h
    · rename_i tail hdrop
      split at h
      · simp at h
      · rename_i hne
        injection h with h'
        injection h' with h1 h2
        subst h1; subst h2
        have hsplit : r.takeWhile (fun c => c ≠ ')') ++ r.dropWhile (fun c => c ≠ ')') = r :=
          List.takeWhile_append_dropWhile _ r
        constructor
        · conv_lhs => rw [← hsplit, hdrop]
          simp [varLit]
        · intro hcon
          rw [hcon] at hne
          simp at hne
    · simp at h
  · simp at h

/-- Core recursion of String.replace with the global variable pattern in
escapeVariables: scan left to right, replace every match with the synthetic
token for the running counter, and record the token-to-original pairs in
insertion order (the order Object.entries later yields). -/
def escLoop : Str → Nat → (Str × List (Str × Str))
  | [], _ => ([], [])
  | c :: cs, n =>
    match h : varMatchAt (c :: cs) with
    | some (name, rest) =>
      (placeholderTok n ++ (escLoop rest (n + 1)).1,
        (placeholderTok n, varLit name) :: (escLoop rest (n + 1)).2)
    | none =>
      (c :: (escLoop cs n).1, (escLoop cs n).2)
termination_by s _ => s.length
decreasing_by
  · exact varMatchAt_rest_lt h
  · simp

/-- Unfolding lemma for escLoop with a plain (non-dependent) match, usable
for rewriting and evaluation. -/
theorem escLoop_cons (c : Char) (cs : Str) (n : Nat) :
    escLoop (c :: cs) n =
      match varMatchAt (c :: cs) with
      | some (name, rest) =>
        (placeholderTok n ++ (escLoop rest (n + 1)).1,
          (placeholderTok n, varLit name) :: (escLoop rest (n + 1)).2)
      | none => (c :: (escLoop cs n).1, (escLoop cs n).2) := by
  rw [escLoop]
  split
  · rename_i name rest h
    rw [h]
  · rename_i h
    rw [h]

/-- Result record of escapeVariables. -/
structure EscapedResult where
  escapedSql : Str
  variableMap : List (Str × Str)
deriving DecidableEq, Repr

/-- Model of VariableHandler.escapeVariables: replace every variable match
with a fresh synthetic token, counting from zero. -/
def escapeVariables (sql : Str) : EscapedResult :=
  ⟨(escLoop sql 0).1, (escLoop sql 0).2⟩

/-- Literal global string replacement: scan left to right, replace each
non-overlapping occurrence of pat by rep, continuing after the match.
This is the semantics of String.replace with a global regex whose pattern
is the regex-escaped literal pat (as built in revertEscapedSql). -/
def replaceAll (pat rep : Str) : Str → Str
  | [] => []
  | c :: cs =>
    if pat ≠ [] ∧ pat.isPrefixOf (c :: cs) then
      rep ++ replaceAll pat rep ((c :: cs).drop pat.length)
    else
      c :: replaceAll pat rep cs
termination_by s => s.length
decreasing_by
  · rename_i h
    have hpos : 1 ≤ pat.length := List.length_pos.mpr h.1
    simp only [List.length_drop, List.length_cons]
    omega
  · simp

/-- Model of VariableHandler.revertEscapedSql: fold over the variable map
entries in insertion order, globally replacing each synthetic token by the
original variable literal. -/
def revertEscapedSql (escapedSql : Str) (variableMap : List (Str × Str)) : Str :=
  variableMap.foldl (fun s pv => replaceAll pv.1 pv.2 s) escapedSql

/-! ### Occurrence reasoning for the round-trip analysis -/

/-- The pattern pat occurs nowhere in s (not even as a prefix of a suffix). -/
def noOcc (pat s : Str) : Prop := ∀ i : Nat, ¬ pat <+: s.drop i

theorem isPrefix_drop {x big : Str} (h : x <+: big) (i : Nat) :
    x.drop i <+: big.drop i := by
  obtain ⟨t, rfl⟩ := h
  rw [List.drop_append_eq_append_drop]
  exact List.prefix_append _ _

theorem noOcc_of_prefix {pat x big : Str} (h : x <+: big) (hb : noOcc pat big) :
    noOcc pat x := by
  intro i hocc
  exact hb i (hocc.trans (isPrefix_drop h i))

theorem noOcc_of_suffix {pat x y : Str} (hb : noOcc pat (x ++ y)) : noOcc pat y := by
  intro i hocc
  refine hb (x.length + i) ?_
  rw [List.drop_append_eq_append_drop]
  have h1 : x.drop (x.length + i) = [] := by
    apply List.drop_eq_nil_of_le; omega
  have h2 : x.length + i - x.length = i := by omega
  rw [h1, h2]
  simpa using hocc

theorem prefix_append_left_of_le {p x y : Str} (h : p <+: x ++ y)
    (hl : p.length ≤ x.length) : p <+: x := by
  have hp := List.prefix_iff_eq_take.mp h
  rw [List.take_append_eq_append_take] at hp
  have hz : p.length - x.length = 0 := by omega
  rw [hz] at hp
  simp only [List.take_zero, List.append_nil] at hp
  rw [hp]
  exact List.take_prefix _ _

theorem prefix_append_over {p x y : Str} (h : p <+: x ++ y)
    (hl : x.length ≤ p.length) : x <+: p ∧ p.drop x.length <+: y := by
  have hp := List.prefix_iff_eq_take.mp h
  rw [List.take_append_eq_append_take] at hp
  have hx : x.take p.length = x := List.take_of_length_le hl
  rw [hx] at hp
  constructor
  · exact hp ▸ List.prefix_append _ _
  · rw [hp, List.drop_left]
    exact List.take_prefix _ _

theorem cons_prefix_head {c : Char} {p z : Str} (h : (c :: p) <+: z) :
    ∃ z', z = c :: z' := by
  obtain ⟨t, ht⟩ := h
  exact ⟨p ++ t, ht.symm⟩

theorem phUnd_unfold : phUnd = '$' ::
    ['\x7b', 'p', 'l', 'a', 'c', 'e', 'h', 'o', 'l', 'd', 'e', 'r', '\x7d', '_'] := by
  decide

theorem phUnd_len : phUnd.length = 15 := by decide

theorem phUnd_drop_head : ∀ m, m < 15 → 1 ≤ m →
    (phUnd.drop m).head? ≠ some '$' ∧ phUnd.drop m ≠ [] := by decide

/-- Master span lemma: in a concatenation whose left part contains no
occurrence of the synthetic-token prefix and whose right part is empty or
starts with a dollar sign, no occurrence of that prefix can start inside
the left part. -/
theorem no_phUnd_start_in_seg {s b : Str} (hs : noOcc phUnd s)
    (hb : b = [] ∨ ∃ b', b = '$' :: b') :
    ∀ i, i < s.length → ¬ phUnd <+: (s ++ b).drop i := by
  intro i hi hocc
  rw [List.drop_append_eq_append_drop] at hocc
  have hz : i - s.length = 0 := by omega
  rw [hz, List.drop_zero] at hocc
  have hm : 1 ≤ (s.drop i).length := by
    simp only [List.length_drop]
    omega
  by_cases hcase : 15 ≤ (s.drop i).length
  · exact hs i (prefix_append_left_of_le hocc (by rw [phUnd_len]; exact hcase))
  · have hover := prefix_append_over hocc (by rw [phUnd_len]; omega)
    rcases hb with rfl | ⟨b', rfl⟩
    · have hnil := List.prefix_nil.mp hover.2
      exact (phUnd_drop_head (s.drop i).length (by omega) hm).2 hnil
    · have hh := phUnd_drop_head (s.drop i).length (by omega) hm
      rcases hd : phUnd.drop (s.drop i).length with _ | ⟨d, t⟩
      · exact hh.2 hd
      · rw [hd] at hover
        obtain ⟨z', hz'⟩ := cons_prefix_head hover.2
        injection hz' with h1 _
        apply hh.1
        rw [hd, h1]
        rfl

theorem toDigits_single : ∀ n, n < 10 → Nat.toDigits 10 n = [Nat.digitChar n] := by
  decide

theorem tok_len {n : Nat} (h : n < 10) : (placeholderTok n).length = 16 := by
  rw [placeholderTok, toDigits_single n h]
  simp [List.length_append, phUnd_len]

theorem tok_head (n : Nat) : ∃ t, placeholderTok n = '$' :: t := by
  refine ⟨['\x7b', 'p', 'l', 'a', 'c', 'e', 'h', 'o', 'l', 'd', 'e', 'r', '\x7d', '_']
    ++ Nat.toDigits 10 n, ?_⟩
  rw [placeholderTok, phUnd_unfold]
  rfl

theorem phUnd_prefix_tok (n : Nat) : phUnd <+: placeholderTok n :=
  ⟨Nat.toDigits 10 n, rfl⟩

theorem tok_drop_head : ∀ n, n < 10 → ∀ d, d < 16 → 1 ≤ d →
    ((placeholderTok n).drop d).head? ≠ some '$' ∧ (placeholderTok n).drop d ≠ [] := by
  have h : ∀ n, n < 10 → ∀ d, d < 16 → 1 ≤ d →
      ((phUnd ++ [Nat.digitChar n]).drop d).head? ≠ some '$' ∧
        (phUnd ++ [Nat.digitChar n]).drop d ≠ [] := by decide
  intro n hn d hd hd1
  rw [placeholderTok, toDigits_single n hn]
  exact h n hn d hd hd1

theorem tok_inj : ∀ n, n < 10 → ∀ j, j < 10 →
    placeholderTok n = placeholderTok j → n = j := by
  have h : ∀ n, n < 10 → ∀ j, j < 10 →
      phUnd ++ [Nat.digitChar n] = phUnd ++ [Nat.digitChar j] → n = j := by decide
  intro n hn j hj heq
  rw [placeholderTok, placeholderTok, toDigits_single n hn, toDigits_single j hj] at heq
  exact h n hn j hj heq

/-! ### Lemmas about replaceAll -/

theorem replaceAll_nil (pat rep : Str) : replaceAll pat rep [] = [] := by
  simp [replaceAll]

theorem replaceAll_no_occ {pat : Str} (rep : Str) {s : Str} (h : noOcc pat s) :
    replaceAll pat rep s = s := by
  induction s with
  | nil => exact replaceAll_nil pat rep
  | cons c cs ih =>
    rw [replaceAll]
    rw [if_neg]
    · rw [ih]
      intro i hocc
      have := h (i + 1)
      simp only [List.drop_succ_cons] at this
      exact this hocc
    · rintro ⟨hne, hpre⟩
      have := h 0
      simp only [List.drop_zero] at this
      exact this (List.isPrefixOf_iff_prefix.mp hpre)

theorem replaceAll_head {pat : Str} (rep : Str) (b : Str) (hp : pat ≠ []) :
    replaceAll pat rep (pat ++ b) = rep ++ replaceAll pat rep b := by
  cases pat with
  | nil => exact absurd rfl hp
  | cons p ps =>
    show replaceAll (p :: ps) rep (p :: (ps ++ b)) = _
    rw [replaceAll]
    rw [if_pos]
    · have hdrop : (p :: (ps ++ b)).drop (p :: ps).length = b := by
        have : p :: (ps ++ b) = (p :: ps) ++ b := rfl
        rw [this, List.drop_left]
      rw [hdrop]
    · exact ⟨by simp, List.isPrefixOf_iff_prefix.mpr (List.prefix_append _ _)⟩

theorem replaceAll_append_left {pat rep : Str} {a : Str} (b : Str)
    (h : ∀ i, i < a.length → ¬ pat <+: (a ++ b).drop i) :
    replaceAll pat rep (a ++ b) = a ++ replaceAll pat rep b := by
  induction a with
  | nil => simp
  | cons c a' ih =>
    show replaceAll pat rep (c :: (a' ++ b)) = _
    rw [replaceAll]
    rw [if_neg]
    · rw [ih]
      · rfl
      · intro i hi hocc
        have := h (i + 1) (by simp; omega)
        simp only [List.cons_append, List.drop_succ_cons] at this
        exact this hocc
    · rintro ⟨hne, hpre⟩
      have := h 0 (by simp)
      simp only [List.drop_zero] at this
      exact this (List.isPrefixOf_iff_prefix.mp hpre)

/-! ### Canonical decomposition produced by the escape step -/

/-- Relation between an original text, its escaped form and the variable
map produced by escLoop with starting counter n: the text decomposes into
literal segments alternating with variable literals, and the escaped text
replaces the i-th variable with the synthetic token numbered n + i. -/
inductive EscRep : Nat → Str → Str → List (Str × Str) → Prop
  | last (n : Nat) (fin : Str) : EscRep n fin fin []
  | blk (n : Nat) (seg name cs' esc' : Str) (entries' : List (Str × Str)) :
      EscRep (n + 1) cs' esc' entries' →
      EscRep n (seg ++ (varLit name ++ cs')) (seg ++ (placeholderTok n ++ esc'))
        ((placeholderTok n, varLit name) :: entries')

theorem EscRep.cons_seg {n : Nat} {cs esc : Str} {entries : List (Str × Str)}
    (h : EscRep n cs esc entries) (c : Char) :
    EscRep n (c :: cs) (c :: esc) entries := by
  cases h with
  | last => exact EscRep.last _ _
  | blk _ seg name cs' esc' entries' h' =>
    exact EscRep.blk _ (c :: seg) name cs' esc' entries' h'

theorem escLoop_nil (n : Nat) : escLoop [] n = ([], []) := by
  simp [escLoop]

/-- The escape recursion always produces a canonical decomposition. -/
theorem escLoop_rep (cs : Str) (n : Nat) :
    EscRep n cs (escLoop cs n).1 (escLoop cs n).2 := by
  induction cs, n using escLoop.induct with
  | case1 n => rw [escLoop_nil]; exact EscRep.last _ _
  | case2 c cs n name rest h ih =>
    rw [escLoop_cons, h]
    obtain ⟨hx, -⟩ := varMatchAt_spec h
    rw [hx]
    exact EscRep.blk n [] name rest _ _ ih
  | case3 c cs n h ih =>
    rw [escLoop_cons, h]
    exact ih.cons_seg c

/-- Every occurrence of the synthetic-token prefix in the escaped text is
the start of one of the synthetic tokens numbered n, ..., n + k - 1. -/
theorem occ_in_escaped {n : Nat} {cs esc : Str} {entries : List (Str × Str)}
    (hrep : EscRep n cs esc entries) :
    noOcc phUnd cs → n + entries.length ≤ 10 →
    ∀ i, phUnd <+: esc.drop i →
      ∃ j r, n ≤ j ∧ j < n + entries.length ∧ esc.drop i = placeholderTok j ++ r := by
  induction hrep with
  | last n0 fin =>
    intro hPH _ i hocc
    exact absurd hocc (hPH i)
  | blk n0 seg name cs' esc' entries' h' ih =>
    intro hPH hn i hocc
    have hsegfree : noOcc phUnd seg :=
      noOcc_of_prefix ⟨varLit name ++ cs', rfl⟩ hPH
    have hcs' : noOcc phUnd cs' := by
      have hx : seg ++ (varLit name ++ cs') = (seg ++ varLit name) ++ cs' := by
        rw [List.append_assoc]
      exact noOcc_of_suffix (hx ▸ hPH)
    have hn' : (n0 + 1) + entries'.length ≤ 10 := by
      simp only [List.length_cons] at hn
      omega
    have hn9 : n0 < 10 := by
      simp only [List.length_cons] at hn
      omega
    obtain ⟨t0, ht0⟩ := tok_head n0
    by_cases h1 : i < seg.length
    · exfalso
      refine no_phUnd_start_in_seg hsegfree (Or.inr ⟨t0 ++ esc', ?_⟩) i h1 hocc
      rw [ht0]
      rfl
    · push_neg at h1
      have hdrop : (seg ++ (placeholderTok n0 ++ esc')).drop i
          = (placeholderTok n0 ++ esc').drop (i - seg.length) := by
        rw [List.drop_append_eq_append_drop, List.drop_eq_nil_of_le h1]
        rfl
      rw [hdrop] at hocc
      by_cases h2 : i - seg.length = 0
      · refine ⟨n0, esc', le_refl _, by simp, ?_⟩
        rw [hdrop, h2, List.drop_zero]
      · by_cases h3 : i - seg.length < 16
        · exfalso
          have hdrop2 : (placeholderTok n0 ++ esc').drop (i - seg.length)
              = (placeholderTok n0).drop (i - seg.length) ++ esc' := by
            rw [List.drop_append_eq_append_drop]
            have : i - seg.length - (placeholderTok n0).length = 0 := by
              rw [tok_len hn9]; omega
            rw [this, List.drop_zero]
          rw [hdrop2] at hocc
          have hh := tok_drop_head n0 hn9 (i - seg.length) h3 (by omega)
          rcases hd : (placeholderTok n0).drop (i - seg.length) with _ | ⟨c, t⟩
          · exact hh.2 hd
          · rw [hd] at hocc
            rw [phUnd_unfold] at hocc
            obtain ⟨z', hz'⟩ := cons_prefix_head hocc
            have hc : c = '$' := by
              have h9 := congrArg List.head? hz'
              simpa using h9
            apply hh.1
            rw [hd, hc]
            rfl
        · have hdrop3 : (placeholderTok n0 ++ esc').drop (i - seg.length)
              = esc'.drop (i - seg.length - 16) := by
            rw [List.drop_append_eq_append_drop]
            have h5 : (placeholderTok n0).drop (i - seg.length) = [] := by
              apply List.drop_eq_nil_of_le
              rw [tok_len hn9]; omega
            rw [h5, tok_len hn9]
            rfl
          rw [hdrop3] at hocc
          obtain ⟨j, r, hj1, hj2, heq⟩ := ih hcs' hn' _ hocc
          refine ⟨j, r, by omega, by simp only [List.length_cons]; omega, ?_⟩
          rw [hdrop, hdrop3, heq]

/-- Folding the variable map through global replacement restores the
original text, for any already-reverted prior text pre, provided the whole
original contains no occurrence of the synthetic-token prefix and at most
ten variables were escaped. -/
theorem revert_fold {n : Nat} {cs esc : Str} {entries : List (Str × Str)}
    (hrep : EscRep n cs esc entries) :
    ∀ pre : Str, noOcc phUnd (pre ++ cs) → n + entries.length ≤ 10 →
      entries.foldl (fun s pv => replaceAll pv.1 pv.2 s) (pre ++ esc) = pre ++ cs := by
  induction hrep with
  | last n0 fin =>
    intro pre _ _
    simp
  | blk n0 seg name cs' esc' entries' h' ih =>
    intro pre hfree hn
    have hn' : (n0 + 1) + entries'.length ≤ 10 := by
      simp only [List.length_cons] at hn
      omega
    have hn9 : n0 < 10 := by
      simp only [List.length_cons] at hn
      omega
    have hcs' : noOcc phUnd cs' := by
      have hx : pre ++ (seg ++ (varLit name ++ cs')) = (pre ++ seg ++ varLit name) ++ cs' := by
        simp [List.append_assoc]
      exact noOcc_of_suffix (hx ▸ hfree)
    obtain ⟨t0, ht0⟩ := tok_head n0
    -- no occurrence of the token starts inside the already-handled part
    have hafree : noOcc phUnd (pre ++ seg) := by
      refine noOcc_of_prefix ⟨varLit name ++ cs', ?_⟩ hfree
      simp [List.append_assoc]
    have hnostart : ∀ i, i < (pre ++ seg).length →
        ¬ placeholderTok n0 <+: ((pre ++ seg) ++ (placeholderTok n0 ++ esc')).drop i := by
      intro i hi hocc
      refine no_phUnd_start_in_seg hafree (Or.inr ⟨t0 ++ esc', ?_⟩) i hi
        ((phUnd_prefix_tok n0).trans hocc)
      rw [ht0]
      rfl
    -- the token does not occur in the escaped remainder
    have hno_esc' : noOcc (placeholderTok n0) esc' := by
      intro i hocc
      obtain ⟨j, r, hj1, hj2, heq⟩ :=
        occ_in_escaped h' hcs' hn' i ((phUnd_prefix_tok n0).trans hocc)
      rw [heq] at hocc
      have hlen : (placeholderTok n0).length ≤ (placeholderTok j).length := by
        rw [tok_len hn9, tok_len (by omega : j < 10)]
      have hpre2 : placeholderTok n0 <+: placeholderTok j :=
        prefix_append_left_of_le hocc hlen
      have heq2 : placeholderTok n0 = placeholderTok j :=
        hpre2.eq_of_length (by rw [tok_len hn9, tok_len (by omega : j < 10)])
      have := tok_inj n0 hn9 j (by omega) heq2
      omega
    have hassoc : pre ++ (seg ++ (placeholderTok n0 ++ esc'))
        = (pre ++ seg) ++ (placeholderTok n0 ++ esc') := by
      simp [List.append_assoc]
    have hstep : replaceAll (placeholderTok n0) (varLit name)
        (pre ++ (seg ++ (placeholderTok n0 ++ esc')))
        = (pre ++ seg) ++ (varLit name ++ esc') := by
      rw [hassoc, replaceAll_append_left _ hnostart,
        replaceAll_head _ esc' (by obtain ⟨t, ht⟩ := tok_head n0; rw [ht]; simp),
        replaceAll_no_occ _ hno_esc']
    calc ((placeholderTok n0, varLit name) :: entries').foldl
          (fun s pv => replaceAll pv.1 pv.2 s) (pre ++ (seg ++ (placeholderTok n0 ++ esc')))
        = entries'.foldl (fun s pv => replaceAll pv.1 pv.2 s)
            ((pre ++ seg ++ varLit name) ++ esc') := by
          rw [List.foldl_cons, hstep, ← List.append_assoc]
      _ = (pre ++ seg ++ varLit name) ++ cs' := by
          refine ih (pre ++ seg ++ varLit name) ?_ hn'
          have hx : (pre ++ seg ++ varLit name) ++ cs'
              = pre ++ (seg ++ (varLit name ++ cs')) := by
            simp [List.append_assoc]
          rw [hx]
          exact hfree
      _ = pre ++ (seg ++ (varLit name ++ cs')) := by simp [List.append_assoc]

theorem noOcc_of_not_infix {pat s : Str} (h : ¬ pat <:+: s) : noOcc pat s := by
  intro i hocc
  obtain ⟨t, ht⟩ := hocc
  exact h ⟨s.take i, t, by rw [List.append_assoc, ht, List.take_append_drop]⟩

theorem replaceAll_self (pat rep : Str) (hp : pat ≠ []) :
    replaceAll pat rep pat = rep := by
  have h := @replaceAll_head pat rep [] hp
  simpa [replaceAll_nil] using h

end VariableHandler

/-- C1 (amended round-trip). For every text that does not contain the
synthetic-token stem (PLACEHOLDER followed by an underscore) as a substring
and in which at most ten variable occurrences are escaped, reverting the
escaped text with the variable map produced by the same escape call yields
the original text. The unrestricted claim is refuted by
C1_roundtrip_counterexample: a text that already contains the literal
synthetic token is corrupted by the global replacement, and an eleventh
variable produces a token having an earlier token as a proper prefix. -/
theorem C1_roundtrip_amended (sql : Str)
    (h1 : ¬ VariableHandler.phUnd <:+: sql)
    (h2 : (VariableHandler.escapeVariables sql).variableMap.length ≤ 10) :
    VariableHandler.revertEscapedSql
      (VariableHandler.escapeVariables sql).escapedSql
      (VariableHandler.escapeVariables sql).variableMap = sql := by
  have hrep := VariableHandler.escLoop_rep sql 0
  have hfree : VariableHandler.noOcc VariableHandler.phUnd ([] ++ sql) := by
    simpa using VariableHandler.noOcc_of_not_infix h1
  have h2' : 0 + (VariableHandler.escLoop sql 0).2.length ≤ 10 := by
    simpa using h2
  have := VariableHandler.revert_fold hrep [] hfree h2'
  simpa [VariableHandler.revertEscapedSql, VariableHandler.escapeVariables] using this

/-- C1 counterexample: the round-trip claim fails as stated. For the text
consisting of the literal characters of the synthetic token numbered zero
followed by the variable occurrence dollar-paren-x-paren, escaping produces
a variable map whose global replacement also rewrites the literal token
text, so reverting does not restore the original. -/
theorem C1_roundtrip_counterexample :
    ¬ (VariableHandler.revertEscapedSql
        (VariableHandler.escapeVariables
          (VariableHandler.phUnd ++ ('0' :: VariableHandler.varLit ['x']))).escapedSql
        (VariableHandler.escapeVariables
          (VariableHandler.phUnd ++ ('0' :: VariableHandler.varLit ['x']))).variableMap
      = VariableHandler.phUnd ++ ('0' :: VariableHandler.varLit ['x'])) := by
  have hesc : VariableHandler.escLoop
      (VariableHandler.phUnd ++ ('0' :: VariableHandler.varLit ['x'])) 0
      = (VariableHandler.placeholderTok 0 ++ VariableHandler.placeholderTok 0,
          [(VariableHandler.placeholderTok 0, VariableHandler.varLit ['x'])]) := by
    have hdig : Nat.toDigits 10 0 = ['0'] := by decide
    simp [VariableHandler.phUnd, VariableHandler.PLACEHOLDER, VariableHandler.varLit,
      VariableHandler.placeholderTok, VariableHandler.escLoop_cons,
      VariableHandler.escLoop_nil, VariableHandler.varMatchAt, hdig]
  intro hcon
  rw [VariableHandler.revertEscapedSql, VariableHandler.escapeVariables, hesc] at hcon
  simp only [List.foldl_cons, List.foldl_nil] at hcon
  rw [VariableHandler.replaceAll_head _ _ (by decide),
    VariableHandler.replaceAll_self _ _ (by decide)] at hcon
  revert hcon
  decide

/-- Witness for C1_roundtrip_amended at the four-character text
dollar-paren-a-paren. -/
theorem C1_roundtrip_witness :
    ¬ VariableHandler.phUnd <:+: (['$', '(', 'a', ')'] : Str) ∧
    (VariableHandler.escapeVariables ['$', '(', 'a', ')']).variableMap.length ≤ 10 ∧
    VariableHandler.revertEscapedSql
      (VariableHandler.escapeVariables ['$', '(', 'a', ')']).escapedSql
      (VariableHandler.escapeVariables ['$', '(', 'a', ')']).variableMap
      = ['$', '(', 'a', ')'] := by
  have h1 : ¬ VariableHandler.phUnd <:+: (['$', '(', 'a', ')'] : Str) := by decide
  have h2 : (VariableHandler.escapeVariables ['$', '(', 'a', ')']).variableMap.length ≤ 10 := by
    have hdig : Nat.toDigits 10 0 = ['0'] := by decide
    simp [VariableHandler.escapeVariables, VariableHandler.escLoop_cons,
      VariableHandler.escLoop_nil, VariableHandler.varMatchAt, hdig]
  exact ⟨h1, h2, C1_roundtrip_amended _ h1 h2⟩

namespace VariableHandler

/-- Leftmost match of the variable pattern in a string: offset of the match
start and length of the match, if any. -/
def scanVar : Str → Option (Nat × Nat)
  | [] => none
  | c :: cs =>
    match varMatchAt (c :: cs) with
    | some (name, _) => some (0, name.length + 3)
    | none => (scanVar cs).map (fun p => (p.1 + 1, p.2))

/-- Semantics of RegExp.prototype.test on a regex with the global flag, as
used by VariableHandler.hasVariables: VARIABLE_PATTERN is a static regex
with flag g, so test starts searching at the regex's persistent lastIndex,
advances lastIndex past a match on success and resets it to zero on
failure. The model takes the incoming lastIndex and returns the test
result together with the updated lastIndex. -/
def hasVariables (lastIndex : Nat) (sql : Str) : Bool × Nat :=
  if sql.length < lastIndex then (false, 0)
  else
    match scanVar (sql.drop lastIndex) with
    | some (off, len) => (true, lastIndex + off + len)
    | none => (false, 0)

end VariableHandler

/-- C7 evidence (code bug): hasVariables is not a deterministic function of
its text argument. On the text dollar-paren-a-paren, which matches the
variable pattern, a first call returns true and advances the static
regex's lastIndex past the match, so an immediately repeated call on the
very same text returns false. The sibling extractVariables resets
lastIndex before scanning; hasVariables omits that reset. -/
theorem C7_hasVariables_stateful :
    (VariableHandler.hasVariables 0 ['$', '(', 'a', ')']).1 = true ∧
    (VariableHandler.hasVariables
      (VariableHandler.hasVariables 0 ['$', '(', 'a', ')']).2
      ['$', '(', 'a', ')']).1 = false := by
  decide

/-! ## Fuzzy matcher (packages/core/src/autocomplete/fuzzy-matcher.ts) -/

namespace Autocomplete

/-- The while loop of fuzzyMatch: walk the target once; on a character
match advance the query, bump the consecutive-match counter and add
1 + 0.1 times the counter to the score; on a mismatch reset the counter.
Returns the unconsumed query and the final score. -/
def fuzzyLoop : Str → Str → Nat → ℚ → (Str × ℚ)
  | q, [], _, score => (q, score)
  | [], _ :: _, _, score => ([], score)
  | qc :: qs, tc :: ts, cons, score =>
    if qc = tc then
      fuzzyLoop qs ts (cons + 1) (score + 1 + (cons + 1) * (1 / 10))
    else
      fuzzyLoop (qc :: qs) ts 0 score

/-- Model of fuzzyMatch: numbers are exact rationals (the source computes
in floating point; on these formulas and string lengths the double
rounding cannot cross any of the compared thresholds). -/
def fuzzyMatch (query target : Str) (caseSensitive : Bool) : ℚ :=
  if query.isEmpty then 1
  else if target.isEmpty then -1
  else
    let q := if caseSensitive then query else query.map Char.toLower
    let t := if caseSensitive then target else target.map Char.toLower
    if q = t then 1
    else if q.isPrefixOf t then 9 / 10
    else if decide (q <:+: t) then 7 / 10
    else
      let r := fuzzyLoop q t 0 0
      if r.1.isEmpty then
        min 1 (r.2 / ((q.length : ℚ) * (3 / 2))
          * (1 - (((t.length : ℚ) - (q.length : ℚ)) / (t.length : ℚ)))) * (3 / 5)
      else -1

/-- The loop never grows the unconsumed query, and every consumed query
character contributed at least one point to the score. -/
theorem fuzzyLoop_spec (t q : Str) (cons : Nat) (score : ℚ) :
    (fuzzyLoop q t cons score).1.length ≤ q.length ∧
    score + ((q.length : ℚ) - ((fuzzyLoop q t cons score).1.length : ℚ))
      ≤ (fuzzyLoop q t cons score).2 := by
  induction t generalizing q cons score with
  | nil =>
    cases q with
    | nil => simp [fuzzyLoop]
    | cons qc qs => simp [fuzzyLoop]
  | cons tc ts ih =>
    cases q with
    | nil => simp [fuzzyLoop]
    | cons qc qs =>
      rw [fuzzyLoop]
      by_cases hc : qc = tc
      · rw [if_pos hc]
        obtain ⟨ih1, ih2⟩ := ih qs (cons + 1) (score + 1 + (cons + 1) * (1 / 10))
        refine ⟨by simpa using Nat.le_succ_of_le ih1, ?_⟩
        simp only [List.length_cons]
        push_cast at ih2 ⊢
        nlinarith [ih2]
      · rw [if_neg hc]
        exact ih (qc :: qs) 0 score

end Autocomplete

/-- C10: fuzzyMatch returns either -1 (no match) or a score strictly
greater than 0 and at most 1; an empty query returns exactly 1 regardless
of the target, and a nonempty query against an empty target returns -1. -/
theorem C10_fuzzyMatch_range (query target : Str) (caseSensitive : Bool) :
    (Autocomplete.fuzzyMatch query target caseSensitive = -1 ∨
      (0 < Autocomplete.fuzzyMatch query target caseSensitive ∧
        Autocomplete.fuzzyMatch query target caseSensitive ≤ 1)) ∧
    (query = [] → Autocomplete.fuzzyMatch query target caseSensitive = 1) ∧
    (query ≠ [] → target = [] →
      Autocomplete.fuzzyMatch query target caseSensitive = -1) := by
  refine ⟨?_, ?_, ?_⟩
  · rw [Autocomplete.fuzzyMatch]
    by_cases hq : query.isEmpty
    · rw [if_pos hq]
      right
      norm_num
    · rw [if_neg hq]
      by_cases ht : target.isEmpty
      · rw [if_pos ht]
        left
        rfl
      · rw [if_neg ht]
        set q := if caseSensitive then query else query.map Char.toLower with hqdef
        set t := if caseSensitive then target else target.map Char.toLower with htdef
        have hqlen : q.length = query.length := by
          rw [hqdef]
          split <;> simp
        have htlen : t.length = target.length := by
          rw [htdef]
          split <;> simp
        have hqpos : 0 < q.length := by
          rw [hqlen]
          cases query with
          | nil => simp at hq
          | cons a l => simp
        have htpos : 0 < t.length := by
          rw [htlen]
          cases target with
          | nil => simp at ht
          | cons a l => simp
        by_cases h1 : q = t
        · rw [if_pos h1]; right; norm_num
        · rw [if_neg h1]
          by_cases h2 : q.isPrefixOf t
          · rw [if_pos h2]; right; norm_num
          · rw [if_neg h2]
            by_cases h3 : q <:+: t
            · rw [if_pos (by simpa using h3)]; right; norm_num
            · rw [if_neg (by simpa using h3)]
              by_cases h4 : (Autocomplete.fuzzyLoop q t 0 0).1.isEmpty
              · rw [if_pos h4]
                right
                obtain ⟨hs1, hs2⟩ := Autocomplete.fuzzyLoop_spec t q 0 0
                have hrem : ((Autocomplete.fuzzyLoop q t 0 0).1.length : ℚ) = 0 := by
                  rw [List.isEmpty_iff.mp h4]
                  simp
                have hscore : (q.length : ℚ) ≤ (Autocomplete.fuzzyLoop q t 0 0).2 := by
                  rw [hrem] at hs2
                  linarith
                have hqQ : (0 : ℚ) < (q.length : ℚ) := by exact_mod_cast hqpos
                have htQ : (0 : ℚ) < (t.length : ℚ) := by exact_mod_cast htpos
                have hpen : (1 - (((t.length : ℚ) - (q.length : ℚ)) / (t.length : ℚ)))
                    = (q.length : ℚ) / (t.length : ℚ) := by
                  field_simp
                constructor
                · rw [hpen]
                  have hratio : 0 < (Autocomplete.fuzzyLoop q t 0 0).2
                      / ((q.length : ℚ) * (3 / 2)) := by
                    apply div_pos (by linarith) (by positivity)
                  have : 0 < (Autocomplete.fuzzyLoop q t 0 0).2
                      / ((q.length : ℚ) * (3 / 2)) * ((q.length : ℚ) / (t.length : ℚ)) := by
                    apply mul_pos hratio (by positivity)
                  have hmin : 0 < min 1 ((Autocomplete.fuzzyLoop q t 0 0).2
                      / ((q.length : ℚ) * (3 / 2)) * ((q.length : ℚ) / (t.length : ℚ))) := by
                    exact lt_min one_pos this
                  positivity
                · have hmin : min 1 ((Autocomplete.fuzzyLoop q t 0 0).2
                      / ((q.length : ℚ) * (3 / 2))
                      * (1 - (((t.length : ℚ) - (q.length : ℚ)) / (t.length : ℚ)))) ≤ 1 :=
                    min_le_left _ _
                  nlinarith [hmin]
              · rw [if_neg h4]
                left
                rfl
  · intro h
    subst h
    rw [Autocomplete.fuzzyMatch]
    simp
  · intro hq ht
    subst ht
    rw [Autocomplete.fuzzyMatch]
    rw [if_neg (by simpa using hq)]
    simp

/-- Witness for C10_fuzzyMatch_range at query u, target us, case
insensitive. -/
theorem C10_fuzzyMatch_range_witness :
    (Autocomplete.fuzzyMatch ['u'] ['u', 's'] false = -1 ∨
      (0 < Autocomplete.fuzzyMatch ['u'] ['u', 's'] false ∧
        Autocomplete.fuzzyMatch ['u'] ['u', 's'] false ≤ 1)) ∧
    (['u'] = ([] : Str) → Autocomplete.fuzzyMatch ['u'] ['u', 's'] false = 1) ∧
    (['u'] ≠ ([] : Str) → ['u', 's'] = ([] : Str) →
      Autocomplete.fuzzyMatch ['u'] ['u', 's'] false = -1) :=
  C10_fuzzyMatch_range ['u'] ['u', 's'] false

/-! ## Context detector (packages/core/src/parser/context-detector.ts and
packages/core/src/utils/position.ts) -/

namespace ContextDetector

/-- Character class of the regex escape backslash-w restricted to ASCII
(every input in the repository and spec is ASCII). -/
def isWordChar (c : Char) : Bool :=
  decide (('a' ≤ c ∧ c ≤ 'z') ∨ ('A' ≤ c ∧ c ≤ 'Z') ∨ ('0' ≤ c ∧ c ≤ '9') ∨ c = '_')

/-- Character class of the regex escape backslash-s and of the characters
String.prototype.trimEnd strips, restricted to ASCII. -/
def isSpaceChar (c : Char) : Bool :=
  decide (c = ' ' ∨ c = '\t' ∨ c = '\n' ∨ c = '\r' ∨ c = '\x0b' ∨ c = '\x0c')

def takeRightWhile (p : Char → Bool) (s : Str) : Str :=
  (s.reverse.takeWhile p).reverse

def dropRightWhile (p : Char → Bool) (s : Str) : Str :=
  (s.reverse.dropWhile p).reverse

/-- Case-insensitive prefix test (the regex flag i compares after case
folding; ASCII folding via Char.toUpper). -/
def caseInsPrefix : Str → Str → Bool
  | [], _ => true
  | _ :: _, [] => false
  | c :: cs, t :: ts => (c.toUpper = t.toUpper : Bool) && caseInsPrefix cs ts

/-- Word-boundary match of clause at the head of t, with prev the character
immediately before the match position (none at the start of the text).
The clause strings used all start and end with letters, so the regex
word boundary reduces to: the character before and the character after
the match, when they exist, are not word characters. -/
def matchHere (clause t : Str) (prev : Option Char) : Bool :=
  caseInsPrefix clause t
  && (match prev with
      | none => true
      | some p => !isWordChar p)
  && (match (t.drop clause.length).head? with
      | none => true
      | some nxt => !isWordChar nxt)

def containsClauseFrom (clause : Str) : Str → Option Char → Bool
  | [], prev => matchHere clause [] prev
  | c :: ts, prev => matchHere clause (c :: ts) prev || containsClauseFrom clause ts (some c)

/-- Model of containsClause: word-boundary, case-insensitive search for the
clause in the text. -/
def containsClause (text clause : Str) : Bool :=
  containsClauseFrom clause text none

/-- Model of String.prototype.lastIndexOf for a plain substring: the
largest index at which pat starts in text, or -1. -/
def lastIndexOf (text pat : Str) : Int :=
  match ((List.range (text.length + 1)).filter
      (fun i => pat.isPrefixOf (text.drop i))).getLast? with
  | some i => (i : Int)
  | none => -1

/-- Model of getParenthesisDepth: net parenthesis count clamped to zero at
the end (as in the source, which clamps only the final value). -/
def getParenthesisDepth (text : Str) : Int :=
  max 0 (text.foldl
    (fun d c => if c = '(' then d + 1 else if c = ')' then d - 1 else d) (0 : Int))

/-- SQL context types (types/sql.ts). -/
inductive SQLContextType where
  | select_list | from_clause | where_clause | join_clause
  | group_by | order_by | having_clause | function | unknown
deriving DecidableEq, Repr

/-- Table reference (types/sql.ts); fields not consulted by the modelled
code paths are omitted. -/
structure TableReference where
  name : Str
  database : Option Str := none
  «alias» : Option Str := none
  isCTE : Bool := false
  cteColumns : List Str := []
deriving DecidableEq, Repr

structure Position where
  line : Nat
  column : Nat
deriving DecidableEq, Repr

/-- Model of positionToOffset (utils/position.ts): sum of the lengths of
the first position.line lines (each plus one for the newline), plus the
column. -/
def positionToOffset (text : Str) (pos : Position) : Nat :=
  (((text.splitOn '\n').take pos.line).map (fun l => l.length + 1)).sum + pos.column

/-- Result of analyzeTokens. -/
structure TokenAnalysis where
  currentToken : Str
  previousToken : Option Str
  afterDot : Bool
  dotPrefix : Option Str
deriving DecidableEq, Repr

/-- Model of analyzeTokens: the three anchored regex matches on the text
before the cursor. -/
def analyzeTokens (textBefore : Str) : TokenAnalysis :=
  -- current token: match of word-star anchored at the end
  let currentToken := takeRightWhile isWordChar textBefore
  -- dot match: word-plus, dot, space-star, word-star anchored at the end
  let beforeTok := textBefore.take (textBefore.length - currentToken.length)
  let beforeSpaces := dropRightWhile isSpaceChar beforeTok
  let dotted :=
    match beforeSpaces.getLast? with
    | some '.' =>
      let pref := takeRightWhile isWordChar (beforeSpaces.take (beforeSpaces.length - 1))
      if pref.isEmpty then none else some pref
    | _ => none
  -- previous token: word-plus, space-star anchored at the end of the
  -- trimmed text
  let trimmed := dropRightWhile isSpaceChar textBefore
  let prevRun := takeRightWhile isWordChar trimmed
  let previousToken :=
    if prevRun.isEmpty ∨ dotted.isSome then none else some prevRun
  ⟨currentToken, previousToken, dotted.isSome, dotted⟩

/-- Clause keyword literals (uppercase, as compared after toUpperCase). -/
def kwHAVING : Str := ['H', 'A', 'V', 'I', 'N', 'G']

def kwORDERBY : Str := ['O', 'R', 'D', 'E', 'R', ' ', 'B', 'Y']

def kwGROUPBY : Str := ['G', 'R', 'O', 'U', 'P', ' ', 'B', 'Y']

def kwWHERE : Str := ['W', 'H', 'E', 'R', 'E']

def kwJOIN : Str := ['J', 'O', 'I', 'N']

def kwINNERJOIN : Str := ['I', 'N', 'N', 'E', 'R', ' ', 'J', 'O', 'I', 'N']

def kwLEFTJOIN : Str := ['L', 'E', 'F', 'T', ' ', 'J', 'O', 'I', 'N']

def kwRIGHTJOIN : Str := ['R', 'I', 'G', 'H', 'T', ' ', 'J', 'O', 'I', 'N']

def kwFROM : Str := ['F', 'R', 'O', 'M']

def kwSELECT : Str := ['S', 'E', 'L', 'E', 'C', 'T']

def kwON : Str := ['O', 'N']

/-- Model of determineContextType: the clause cascade from the source,
including the substring test afterJoin.includes(ON). -/
def determineContextType (textBefore : Str) : SQLContextType :=
  let upperText := textBefore.map Char.toUpper
  if containsClause upperText kwHAVING then .having_clause
  else if containsClause upperText kwORDERBY then .order_by
  else if containsClause upperText kwGROUPBY then .group_by
  else if containsClause upperText kwWHERE then .where_clause
  else if containsClause upperText kwJOIN || containsClause upperText kwINNERJOIN
      || containsClause upperText kwLEFTJOIN || containsClause upperText kwRIGHTJOIN then
    -- substring(lastIndexOf(JOIN) + 4), then includes(ON): a plain
    -- substring test with no word boundary
    if decide (kwON <:+: upperText.drop ((lastIndexOf upperText kwJOIN + 4).toNat))
    then .where_clause
    else .join_clause
  else if containsClause upperText kwFROM then .from_clause
  else if containsClause upperText kwSELECT then .select_list
  else if 0 < getParenthesisDepth textBefore then .function
  else .unknown

/-- SQL context (types/sql.ts). -/
structure SQLContext where
  type : SQLContextType
  position : Position
  availableTables : List TableReference
  currentToken : Str
  previousToken : Option Str
  afterDot : Bool
  dotPrefix : Option Str
deriving DecidableEq, Repr

/-- Model of detectContext. -/
def detectContext (sql : Str) (pos : Position) (tableRefs : List TableReference) :
    SQLContext :=
  let offset := positionToOffset sql pos
  let textBefore := sql.take offset
  let tk := analyzeTokens textBefore
  ⟨determineContextType textBefore, pos, tableRefs,
    tk.currentToken, tk.previousToken, tk.afterDot, tk.dotPrefix⟩

/-- Model of resolveAlias: first table reference whose alias or name
matches case-insensitively. -/
def resolveAlias («alias» : Str) (tableRefs : List TableReference) :
    Option TableReference :=
  tableRefs.find? (fun ref =>
    (match ref.«alias» with
     | some a => (a.map Char.toLower = «alias».map Char.toLower : Bool)
     | none => false)
    || (ref.name.map Char.toLower = «alias».map Char.toLower : Bool))

/-- The clause cascade exactly as the claim words it: case-insensitive,
word-boundary keyword search over the text before the cursor with the
precedence having, order_by, group_by, where_clause, join_clause,
from_clause, select_list, parenthesis-depth function, unknown;
parameterized by the test deciding the JOIN sub-case (worded in the claim
as: the result is where_clause iff ON occurs after the last JOIN). -/
def claimCascade (joinTest : Str → Bool) (textBefore : Str) : SQLContextType :=
  let upperText := textBefore.map Char.toUpper
  if containsClause upperText kwHAVING then .having_clause
  else if containsClause upperText kwORDERBY then .order_by
  else if containsClause upperText kwGROUPBY then .group_by
  else if containsClause upperText kwWHERE then .where_clause
  else if containsClause upperText kwJOIN || containsClause upperText kwINNERJOIN
      || containsClause upperText kwLEFTJOIN || containsClause upperText kwRIGHTJOIN then
    if joinTest upperText then .where_clause else .join_clause
  else if containsClause upperText kwFROM then .from_clause
  else if containsClause upperText kwSELECT then .select_list
  else if 0 < getParenthesisDepth textBefore then .function
  else .unknown

/-- The claim's reading of the JOIN sub-case: the keyword ON, as a
word-boundary occurrence, appears after the last occurrence of JOIN. -/
def onKeywordAfterLastJoin (upperText : Str) : Bool :=
  containsClause (upperText.drop ((lastIndexOf upperText kwJOIN + 4).toNat)) kwON

/-- The source's actual JOIN sub-case: the two-character substring ON
appears (with no word-boundary requirement) after the last occurrence of
the substring JOIN. -/
def onSubstringAfterLastJoin (upperText : Str) : Bool :=
  decide (kwON <:+: upperText.drop ((lastIndexOf upperText kwJOIN + 4).toNat))

end ContextDetector

/-- C5 (amended): detectContext assigns the context type by
case-insensitive, word-boundary keyword search over the text before the
cursor with the precedence having, order_by, group_by, where_clause,
join_clause, from_clause, select_list, parenthesis-depth function,
unknown; in the JOIN case the result is where_clause iff the two-character
substring ON occurs, with no word-boundary requirement, in the uppercased
text after the position four characters past the start of the last
occurrence of the substring JOIN, and join_clause otherwise. The original
claim's word-boundary reading of the ON test is refuted by
C5_context_counterexample. -/
theorem C5_context_type_amended (sql : Str) (pos : ContextDetector.Position)
    (refs : List ContextDetector.TableReference) :
    (ContextDetector.detectContext sql pos refs).type
      = ContextDetector.claimCascade ContextDetector.onSubstringAfterLastJoin
          (sql.take (ContextDetector.positionToOffset sql pos)) := by
  rfl

/-! ## Shared error and result types (packages/core/src/types) -/

/-- A thrown JavaScript value: either an Error with a message, or any
other value (whose message the catch handlers replace by a fallback). -/
structure JsErr where
  isError : Bool
  message : Str
deriving DecidableEq, Repr

/-- The message a catch handler extracts: error instanceof Error gives the
message, anything else the fallback text. -/
def JsErr.msgOr (e : JsErr) (fallback : Str) : Str :=
  if e.isError then e.message else fallback

inductive Severity where
  | error | warning | info
deriving DecidableEq, Repr

/-- Values of the optional error field named type. -/
inductive ErrType where
  | syntaxErr | semantic | custom
deriving DecidableEq, Repr

/-- A zero-based position inside an error location (line and column may be
any JavaScript numbers after the conversions, hence integers). -/
structure Pos0 where
  line : Int
  column : Int
deriving DecidableEq, Repr

structure RangeL where
  start : Pos0
  «end» : Pos0
deriving DecidableEq, Repr

/-- ParseError and ValidationError modelled as one dynamic record, the way
the untyped JavaScript objects flow through the code: the type field and
the raw engine position fields are optional and simply absent (none) on
objects that never received them. -/
structure ParseError where
  message : Str
  severity : Severity
  location : Option RangeL := none
  type : Option ErrType := none
  startLine : Option Int := none
  startColumn : Option Int := none
  endLine : Option Int := none
  endColumn : Option Int := none
deriving DecidableEq, Repr

/-- Truthy-or for JavaScript number fields: expr-or-default keeps a number
only when it is defined and nonzero (zero is falsy). -/
def numOr (v : Option Int) (d : Int) : Int :=
  match v with
  | some x => if x = 0 then d else x
  | none => d

/-! ## Schema registry (src/unnamed/part_015, class SchemaRegistry) -/

namespace Schema

/-- Column definition (types/schema.ts); fields not consulted by the
modelled code paths are omitted. -/
structure ColumnDefinition where
  type : Str
  nullable : Option Bool := none
  comment : Option Str := none
deriving DecidableEq, Repr

/-- Table definition. Objects are modelled as association lists in
insertion order with unique keys (JavaScript object property order). -/
structure TableDefinition where
  columns : List (Str × ColumnDefinition)
  comment : Option Str := none
deriving DecidableEq, Repr

structure DatabaseDefinition where
  tables : List (Str × TableDefinition)
  comment : Option Str := none
deriving DecidableEq, Repr

structure SchemaDefinition where
  databases : List (Str × DatabaseDefinition)
deriving DecidableEq, Repr

/-- Schema options; DEFAULT_SCHEMA_OPTIONS has caseSensitive false. -/
structure SchemaOptions where
  caseSensitive : Bool
deriving DecidableEq, Repr

def DEFAULT_SCHEMA_OPTIONS : SchemaOptions := ⟨false⟩

/-- Model of SchemaRegistry.normalizeName. -/
def normalizeName (opts : SchemaOptions) (name : Str) : Str :=
  if opts.caseSensitive then name else name.map Char.toLower

/-- Exact property lookup in an object modelled as an association list. -/
def objGet {α : Type} : List (Str × α) → Str → Option α
  | [], _ => none
  | p :: rest, key => if p.1 = key then some p.2 else objGet rest key

/-- Model of SchemaRegistry.getDatabase: exact key match first, then a
normalized-name linear scan. -/
def getDatabase (opts : SchemaOptions) (schema : SchemaDefinition) (database : Str) :
    Option DatabaseDefinition :=
  match objGet schema.databases database with
  | some db => some db
  | none =>
    (schema.databases.find? (fun p =>
      decide (normalizeName opts p.1 = normalizeName opts database))).map (fun p => p.2)

/-- Truthiness of the optional database argument: undefined and the empty
string are falsy. -/
def dbGiven (database : Option Str) : Bool :=
  match database with
  | some d => !d.isEmpty
  | none => false

/-- Model of SchemaRegistry.getTable. -/
def getTable (opts : SchemaOptions) (schema : SchemaDefinition) (tableName : Str)
    (database : Option Str) : Option TableDefinition :=
  if dbGiven database then
    match getDatabase opts schema (database.getD []) with
    | none => none
    | some db =>
      match objGet db.tables tableName with
      | some t => some t
      | none =>
        (db.tables.find? (fun p =>
          decide (normalizeName opts p.1 = normalizeName opts tableName))).map (fun p => p.2)
  else
    (schema.databases.map (fun p => p.2)).foldl
      (fun acc db =>
        match acc with
        | some t => some t
        | none =>
          match objGet db.tables tableName with
          | some t => some t
          | none =>
            (db.tables.find? (fun p =>
              decide (normalizeName opts p.1 = normalizeName opts tableName))).map
                (fun p => p.2))
      none

/-- Column definition together with its name, as getColumns returns it. -/
structure ColumnWithName where
  name : Str
  type : Str
  nullable : Option Bool := none
  comment : Option Str := none
deriving DecidableEq, Repr

/-- Model of SchemaRegistry.getColumns. -/
def getColumns (opts : SchemaOptions) (schema : SchemaDefinition) (tableName : Str)
    (database : Option Str) : List ColumnWithName :=
  match getTable opts schema tableName database with
  | none => []
  | some t => t.columns.map (fun p => ⟨p.1, p.2.type, p.2.nullable, p.2.comment⟩)

/-- Table definition with name and database, as getAllTables returns it. -/
structure TableWithName where
  name : Str
  database : Str
  columns : List (Str × ColumnDefinition)
  comment : Option Str := none
deriving DecidableEq, Repr

/-- Model of SchemaRegistry.getAllTables with no database filter (the only
form the modelled call sites use). -/
def getAllTables (schema : SchemaDefinition) : List TableWithName :=
  (schema.databases.map (fun db =>
    db.2.tables.map (fun t => ⟨t.1, db.1, t.2.columns, t.2.comment⟩))).flatten

end Schema

/-- C5 counterexample: on the text SELECT * FROM a JOIN monitors with the
cursor at its end, the code classifies where_clause (the word MONITORS
contains the substring ON), while the claim's algorithm, which looks for
the ON keyword with word boundaries after the last JOIN, classifies
join_clause. -/
theorem C5_context_counterexample :
    (ContextDetector.detectContext
        ("SELECT * FROM a JOIN monitors").toList ⟨0, 29⟩ []).type
      = ContextDetector.SQLContextType.where_clause ∧
    ContextDetector.claimCascade ContextDetector.onKeywordAfterLastJoin
        (("SELECT * FROM a JOIN monitors").toList.take
          (ContextDetector.positionToOffset ("SELECT * FROM a JOIN monitors").toList ⟨0, 29⟩))
      = ContextDetector.SQLContextType.join_clause := by
  decide

/-! ## Parser service (packages/core/src/parser/parser-service.ts) -/

namespace ParserService

open ContextDetector (TableReference isWordChar isSpaceChar caseInsPrefix kwFROM kwJOIN)

/-- Untyped AST node of the external grammar engine, §9 of the spec: a
rooted tree of untyped nodes. The source guards its traversal with a
visited set against cyclic engine graphs; inductive trees cannot be
cyclic, so the guard has no observable effect in the model. -/
inductive Node where
  | nul
  | bool (b : Bool)
  | num (n : Int)
  | str (s : Str)
  | arr (elems : List Node)
  | obj (fields : List (Str × Node))

/-- JavaScript truthiness of a node value. -/
def truthy : Node → Bool
  | .nul => false
  | .bool b => b
  | .num n => decide (n ≠ 0)
  | .str s => !s.isEmpty
  | .arr _ => true
  | .obj _ => true

/-- Property access on a node (undefined when absent or not an object). -/
def getField (n : Node) (key : Str) : Option Node :=
  match n with
  | .obj fs => (fs.find? (fun p => decide (p.1 = key))).map (fun p => p.2)
  | _ => none

/-- String content of a node; the engine fields read as names carry
strings. -/
def nodeStr : Node → Str
  | .str s => s
  | _ => []

/-- Truthy field as an optional string: the idiom field-or-undefined. -/
def optStrField (n : Node) (key : Str) : Option Str :=
  match getField n key with
  | some v => if truthy v then some (nodeStr v) else none
  | none => none

/-- The visited-node callback of extractTableRefs: emit a table reference
for a table node and for a CTE node. -/
def visitNode (n : Node) : List TableReference :=
  (match getField n (String.toList "type"), getField n (String.toList "table") with
   | some (.str t), some tbl =>
     if t = String.toList "table" ∧ truthy tbl then
       [{ name := nodeStr tbl,
          database := optStrField n (String.toList "db"),
          «alias» := optStrField n (String.toList "as") }]
     else []
   | _, _ => [])
  ++
  (match getField n (String.toList "type"), getField n (String.toList "name") with
   | some (.str t), some nm =>
     if t = String.toList "cte" ∧ truthy nm then
       [{ name := nodeStr nm,
          «alias» := some (nodeStr nm),
          isCTE := true,
          cteColumns :=
            match getField n (String.toList "columns") with
            | some (.arr xs) => xs.map nodeStr
            | _ => [] }]
     else []
   | _, _ => [])

/-- The static deny-list of back-reference field names in traverseAST. -/
def skipKey (k : Str) : Bool :=
  decide (k = String.toList "parent") || decide (k = String.toList "parentCtx")
  || decide (k = String.toList "invokingState") || decide (k = String.toList "_parent")

mutual

/-- Depth-first traversal of traverseAST collecting the callback's table
references: visit the node, then its array elements or non-skipped object
field values (non-object values are skipped by the traversal guard and
contribute nothing). -/
def nodeTables : Node → List TableReference
  | .arr xs => visitNode (.arr xs) ++ listTables xs
  | .obj fs => visitNode (.obj fs) ++ fieldTables fs
  | _ => []

def listTables : List Node → List TableReference
  | [] => []
  | x :: xs => nodeTables x ++ listTables xs

def fieldTables : List (Str × Node) → List TableReference
  | [] => []
  | f :: fs => (if skipKey f.1 then [] else nodeTables f.2) ++ fieldTables fs

end

/-- Model of ParserService.extractTableRefs: falsy AST yields no tables,
otherwise the guarded traversal (which cannot throw in the model, so the
regex fallback in its catch branch is unreachable). -/
def extractTableRefs (ast : Node) : List TableReference :=
  if truthy ast then nodeTables ast else []

/-- Match of the whitespace-plus, word-plus pair after a keyword: returns
the word and the total consumed length. -/
def wsWordAfter (cs : Str) : Option (Str × Nat) :=
  let ws := cs.takeWhile isSpaceChar
  if ws.isEmpty then none
  else
    let rest := cs.drop ws.length
    let word := rest.takeWhile isWordChar
    if word.isEmpty then none
    else some (word, ws.length + word.length)

/-- The optional alias group of the extraction regexes: first alternative
whitespace-plus AS whitespace-plus word-plus, then whitespace-plus
word-plus, then empty. Returns the alias (if any) and the consumed
length. -/
def aliasGroup (cs : Str) : Option Str × Nat :=
  let ws := cs.takeWhile isSpaceChar
  if ws.isEmpty then (none, 0)
  else
    let rest := cs.drop ws.length
    -- first alternative: AS, whitespace, word
    let asTry :=
      if caseInsPrefix (String.toList "AS") rest then
        match wsWordAfter (rest.drop 2) with
        | some (w, n) => some (w, ws.length + 2 + n)
        | none => none
      else none
    match asTry with
    | some (w, n) => (some w, n)
    | none =>
      let word := rest.takeWhile isWordChar
      if word.isEmpty then (none, 0)
      else (some word, ws.length + word.length)

/-- Match attempt of keyword, whitespace-plus, captured word, optional
alias group at the head of the input; returns the reference and the
consumed length. -/
def kwRefMatch (kw : Str) (cs : Str) : Option (TableReference × Nat) :=
  if caseInsPrefix kw cs then
    match wsWordAfter (cs.drop kw.length) with
    | some (name, n) =>
      let (al, m) := aliasGroup (cs.drop (kw.length + n))
      some ({ name := name, «alias» := al }, kw.length + n + m)
    | none => none
  else none

/-- Match attempt of the FROM extraction regex at the head of the input. -/
def fromMatchAt (cs : Str) : Option (TableReference × Nat) :=
  kwRefMatch kwFROM cs

/-- The optional join-kind prefix group: INNER, LEFT, RIGHT, FULL or CROSS
followed by whitespace-plus; with backtracking to the empty alternative
when JOIN does not follow. -/
def joinMatchAt (cs : Str) : Option (TableReference × Nat) :=
  let tryPrefix := fun (kw : Str) =>
    if caseInsPrefix kw cs then
      let ws := (cs.drop kw.length).takeWhile isSpaceChar
      if ws.isEmpty then none
      else
        match kwRefMatch kwJOIN (cs.drop (kw.length + ws.length)) with
        | some (r, n) => some (r, kw.length + ws.length + n)
        | none => none
    else none
  match tryPrefix (String.toList "INNER") with
  | some rn => some rn
  | none =>
    match tryPrefix (String.toList "LEFT") with
    | some rn => some rn
    | none =>
      match tryPrefix (String.toList "RIGHT") with
      | some rn => some rn
      | none =>
        match tryPrefix (String.toList "FULL") with
        | some rn => some rn
        | none =>
          match tryPrefix (String.toList "CROSS") with
          | some rn => some rn
          | none => kwRefMatch kwJOIN cs

/-- Scan loop of a global regex over the text: at each position try the
matcher; on a match record it and resume after the matched text. Fuel is
the remaining length (each step consumes at least one character). -/
def regexScan (f : Str → Option (TableReference × Nat)) : Nat → Str → List TableReference
  | 0, _ => []
  | _ + 1, [] => []
  | fuel + 1, c :: cs =>
    match f (c :: cs) with
    | some (r, n) => r :: regexScan f fuel ((c :: cs).drop (max n 1))
    | none => regexScan f fuel cs

/-- Model of extractTableRefsFromRegex: all FROM matches, then JOIN
matches de-duplicated by name and alias against what is already there. -/
def extractTableRefsFromRegex (sql : Str) : List TableReference :=
  let fromTables := regexScan fromMatchAt sql.length sql
  (regexScan joinMatchAt sql.length sql).foldl
    (fun acc r =>
      if acc.any (fun t => decide (t.name = r.name) && decide (t.«alias» = r.«alias»))
      then acc
      else acc ++ [r])
    fromTables

/-- Insertion into a JavaScript object modelled as an association list:
an existing key keeps its position and gets the new value, a new key is
appended. -/
def objInsert {α : Type} : List (Str × α) → Str → α → List (Str × α)
  | [], k, v => [(k, v)]
  | (k', v') :: rest, k, v =>
    if k' = k then (k', v) :: rest else (k', v') :: objInsert rest k v

/-- The body of the extractAliases loop: register the alias key (when
present), then the name key, both mapped to the reference. -/
def aliasStep (m : List (Str × TableReference)) (ref : TableReference) :
    List (Str × TableReference) :=
  objInsert
    (match ref.«alias» with
     | some a => objInsert m a ref
     | none => m)
    ref.name ref

/-- Model of ParserService.extractAliases: for each reference register its
alias (when present) and its name as keys mapped to the reference. -/
def extractAliases (tableRefs : List TableReference) : List (Str × TableReference) :=
  tableRefs.foldl aliasStep []

/-- Raw error of the external engine's validate call (§6 of the spec:
message with 1-based startLine/startColumn and optional endLine/endColumn). -/
structure RawErr where
  message : Option Str := none
  startLine : Option Int := none
  startColumn : Option Int := none
  endLine : Option Int := none
  endColumn : Option Int := none
deriving DecidableEq, Repr

/-- The error mapping in parse: message-or-fallback, severity error, and a
0-based location built only when startLine is defined, using the
truthy-or chains of the source. -/
def mapEngineErr (err : RawErr) : ParseError :=
  { message :=
      match err.message with
      | some m => if m.isEmpty then String.toList "Parse error" else m
      | none => String.toList "Parse error",
    severity := .error,
    location :=
      match err.startLine with
      | none => none
      | some sl =>
        some { start := ⟨sl - 1, numOr err.startColumn 1 - 1⟩,
               «end» := ⟨numOr err.endLine sl - 1,
                         numOr err.endColumn (numOr err.startColumn 1) - 1⟩ } }

/-- The external grammar engine as an oracle: the results (or thrown
exceptions) of its parse and validate calls per input text. -/
structure Engine where
  parseF : Str → Except JsErr Node
  validateF : Str → Except JsErr (List RawErr)

end ParserService

/-- Stable comparator sort (JavaScript Array.prototype.sort is required to
be stable): insert each element after all already-placed elements not
strictly greater, scanning the input left to right. lt x y means the
comparator orders x strictly before y. -/
def sortStable {α : Type} (lt : α → α → Bool) (l : List α) : List α :=
  l.foldl (fun acc x => insertEnd lt x acc) []
where
  insertEnd (lt : α → α → Bool) (x : α) : List α → List α
    | [] => [x]
    | y :: ys => if lt x y then x :: y :: ys else y :: insertEnd lt x ys

namespace VariableHandler

/-- All start positions of pat in s, ascending: the indexOf loop of
adjustColumnPosition advances by one past each found position, so
overlapping occurrences are all recorded. -/
def occPositions (pat s : Str) : List Nat :=
  (List.range s.length).filter (fun i => pat.isPrefixOf (s.drop i))

/-- One entry of the variablePositions array. -/
structure VarPos where
  start : Nat
  «end» : Nat
  originalLength : Nat
deriving DecidableEq, Repr

/-- Model of VariableHandler.adjustColumnPosition: find every placeholder
occurrence in the escaped line, sort by start position, and add the
signed length difference of every occurrence the column lies strictly
after. -/
def adjustColumnPosition (column : Int) (_originalLine escapedLine : Str)
    (variableMap : List (Str × Str)) : Int :=
  let variablePositions : List VarPos :=
    (variableMap.map (fun pv =>
      (occPositions pv.1 escapedLine).map
        (fun pos => VarPos.mk pos (pos + pv.1.length) pv.2.length))).flatten
  let sorted := sortStable (fun a b => decide (a.start < b.start)) variablePositions
  sorted.foldl
    (fun adjusted v =>
      if decide ((v.start : Int) < column) then
        adjusted + ((v.originalLength : Int) - ((v.«end» : Int) - (v.start : Int)))
      else adjusted)
    column

/-- Line of a text at a JavaScript index: split on newlines, index, with
empty string for out-of-range (the or-empty in the source). -/
def lineAt (text : Str) (line : Int) : Str :=
  if h : 0 ≤ line ∧ line.toNat < (text.splitOn '\n').length then
    (text.splitOn '\n').get ⟨line.toNat, h.2⟩
  else []

/-- Model of VariableHandler.revertErrorPositions. The errors it receives
from parse carry their position information in the location field; the
function looks for startColumn and endColumn properties, which are
undefined on those objects, so they pass through unchanged. -/
def revertErrorPositions (errors : List ParseError) (originalSql escapedSql : Str)
    (variableMap : List (Str × Str)) : List ParseError :=
  errors.map (fun error =>
    if error.startColumn ≠ none ∨ error.endColumn ≠ none then
      let line := numOr error.startLine 0
      let originalLine := lineAt originalSql line
      let escapedLine := lineAt escapedSql line
      { error with
        startColumn := error.startColumn.map
          (fun c => adjustColumnPosition c originalLine escapedLine variableMap),
        endColumn := error.endColumn.map
          (fun c => adjustColumnPosition c originalLine escapedLine variableMap) }
    else error)

end VariableHandler

namespace ParserService

/-- Parse result (types/sql.ts). -/
structure ParseResult where
  success : Bool
  ast : Option Node := none
  errors : List ParseError
  tableRefs : List ContextDetector.TableReference
  aliases : List (Str × ContextDetector.TableReference)

/-- The synthetic result of the catch branch of parse: success false and a
single error carrying the exception's message, severity error, and no
location or type field. -/
def catchResult (e : JsErr) : ParseResult :=
  { success := false,
    errors := [{ message := e.msgOr (String.toList "Unknown parse error"),
                 severity := .error }],
    tableRefs := [],
    aliases := [] }

/-- The variable pre-processing step of parse: when embedded variables are
enabled, hasVariables is consulted (advancing the static regex's
lastIndex), and on a hit the text is escaped (String.replace resets the
shared lastIndex to zero). Returns the text handed to the engine, the
variable map, and the updated lastIndex. -/
def preprocess (embeddedVariables : Bool) (lastIndex : Nat) (sql : Str) :
    Str × List (Str × Str) × Nat :=
  if embeddedVariables then
    let hv := VariableHandler.hasVariables lastIndex sql
    if hv.1 then
      let escaped := VariableHandler.escapeVariables sql
      (escaped.escapedSql, escaped.variableMap, 0)
    else (sql, [], hv.2)
  else (sql, [], lastIndex)

/-- Model of ParserService.parse, with the engine as an oracle and the
static regex's lastIndex threaded explicitly. Returns the parse result
and the updated lastIndex. -/
def parse (embeddedVariables : Bool) (engine : Engine) (lastIndex : Nat) (sql : Str) :
    ParseResult × Nat :=
  let pp := preprocess embeddedVariables lastIndex sql
  let sqlToParse := pp.1
  let variableMap := pp.2.1
  let li' := pp.2.2
  match engine.parseF sqlToParse with
  | .error e => (catchResult e, li')
  | .ok ast =>
    match engine.validateF sqlToParse with
    | .error e => (catchResult e, li')
    | .ok rawErrors =>
      let errors := rawErrors.map mapEngineErr
      let errors2 :=
        if embeddedVariables ∧ variableMap.length > 0 then
          VariableHandler.revertErrorPositions errors sql sqlToParse variableMap
        else errors
      let astTables := extractTableRefs ast
      let regexTables := extractTableRefsFromRegex sql
      let tableRefs := regexTables.foldl
        (fun acc r =>
          if (acc.find? (fun t =>
              decide (t.name = r.name) && decide (t.«alias» = r.«alias»))).isSome
          then acc
          else acc ++ [r])
        astTables
      ({ success := rawErrors.isEmpty,
         ast := some ast,
         errors := errors2,
         tableRefs := tableRefs,
         aliases := extractAliases tableRefs }, li')

end ParserService

/-- C3 (amended): for every input on which the grammar engine's parse or
validate call throws, ParserService.parse does not propagate the exception
and returns a ParseResult with success false and exactly one error with
severity error and the exception's message; the error carries no type
field (the type syntax tag of the original claim is never set by the
parser adapter; C3_parse_catch_counterexample refutes the original). -/
theorem C3_parse_catch_amended (emb : Bool) (engine : ParserService.Engine)
    (li : Nat) (sql : Str) (e : JsErr)
    (h : engine.parseF (ParserService.preprocess emb li sql).1 = Except.error e ∨
      (∃ ast, engine.parseF (ParserService.preprocess emb li sql).1 = Except.ok ast ∧
        engine.validateF (ParserService.preprocess emb li sql).1 = Except.error e)) :
    (ParserService.parse emb engine li sql).1.success = false ∧
    (ParserService.parse emb engine li sql).1.errors
      = [{ message := e.msgOr (String.toList "Unknown parse error"),
           severity := Severity.error }] ∧
    ∀ err ∈ (ParserService.parse emb engine li sql).1.errors, err.type = none := by
  rcases h with h | ⟨ast, h1, h2⟩
  · simp [ParserService.parse, ParserService.catchResult, h]
  · simp [ParserService.parse, ParserService.catchResult, h1, h2]

/-- Witness for C3_parse_catch_amended at an engine whose parse call
throws an Error with message boom. -/
theorem C3_parse_catch_witness :
    (ParserService.parse false
      ⟨fun _ => Except.error ⟨true, String.toList "boom"⟩, fun _ => Except.ok []⟩
      0 (String.toList "SELECT 1")).1.success = false ∧
    (ParserService.parse false
      ⟨fun _ => Except.error ⟨true, String.toList "boom"⟩, fun _ => Except.ok []⟩
      0 (String.toList "SELECT 1")).1.errors
      = [{ message := (JsErr.mk true (String.toList "boom")).msgOr
             (String.toList "Unknown parse error"),
           severity := Severity.error }] ∧
    ∀ err ∈ (ParserService.parse false
      ⟨fun _ => Except.error ⟨true, String.toList "boom"⟩, fun _ => Except.ok []⟩
      0 (String.toList "SELECT 1")).1.errors, err.type = none :=
  C3_parse_catch_amended false
    ⟨fun _ => Except.error ⟨true, String.toList "boom"⟩, fun _ => Except.ok []⟩
    0 (String.toList "SELECT 1") ⟨true, String.toList "boom"⟩ (Or.inl rfl)

/-- C3 counterexample: the synthetic error of the catch branch does not
carry type syntax (it carries no type field at all) on a concrete engine
whose parse call throws. -/
theorem C3_parse_catch_counterexample :
    (ParserService.parse false
      ⟨fun _ => Except.error ⟨true, String.toList "boom"⟩, fun _ => Except.ok []⟩
      0 (String.toList "SELECT 1")).1.success = false ∧
    (ParserService.parse false
      ⟨fun _ => Except.error ⟨true, String.toList "boom"⟩, fun _ => Except.ok []⟩
      0 (String.toList "SELECT 1")).1.errors.length = 1 ∧
    ∀ err ∈ (ParserService.parse false
      ⟨fun _ => Except.error ⟨true, String.toList "boom"⟩, fun _ => Except.ok []⟩
      0 (String.toList "SELECT 1")).1.errors, ¬ err.type = some ErrType.syntaxErr := by
  refine ⟨rfl, rfl, ?_⟩
  intro err herr
  simp [ParserService.parse, ParserService.catchResult] at herr
  rw [herr]
  simp

/-- C4 evidence (code bug): with embedded variables enabled on the text
dollar-paren-abc-paren-space-x and an engine error at 1-based line 1,
column 20 on the escaped text, parse returns the error with 0-based
column 19 unchanged, although the claimed adjustment (which
adjustColumnPosition would compute, third conjunct) maps 19 to 9: the
escaped line carries one synthetic token of length 16 replacing a
6-character variable before that column. revertErrorPositions looks for
startColumn and endColumn properties, but parse hands it errors already
mapped to the location shape, so the adjustment never fires. -/
theorem C4_error_positions_not_reverted :
    (ParserService.parse true
      ⟨fun _ => Except.ok ParserService.Node.nul,
       fun _ => Except.ok [{ startLine := some 1, startColumn := some 20 }]⟩
      0 (String.toList "$(abc) x")).1.errors
      = [{ message := String.toList "Parse error", severity := Severity.error,
           location := some ⟨⟨0, 19⟩, ⟨0, 19⟩⟩ }] ∧
    VariableHandler.escapeVariables (String.toList "$(abc) x")
      = ⟨VariableHandler.placeholderTok 0 ++ String.toList " x",
         [(VariableHandler.placeholderTok 0, String.toList "$(abc)")]⟩ ∧
    VariableHandler.adjustColumnPosition 19 (String.toList "$(abc) x")
      (VariableHandler.placeholderTok 0 ++ String.toList " x")
      [(VariableHandler.placeholderTok 0, String.toList "$(abc)")] = 9 := by
  have hdig : Nat.toDigits 10 0 = ['0'] := by decide
  have hesc : VariableHandler.escapeVariables (String.toList "$(abc) x")
      = ⟨VariableHandler.placeholderTok 0 ++ String.toList " x",
         [(VariableHandler.placeholderTok 0, String.toList "$(abc)")]⟩ := by
    simp [VariableHandler.escapeVariables, VariableHandler.escLoop_cons,
      VariableHandler.escLoop_nil, VariableHandler.varMatchAt,
      VariableHandler.placeholderTok, VariableHandler.phUnd,
      VariableHandler.PLACEHOLDER, VariableHandler.varLit, hdig, String.toList]
  refine ⟨?_, hesc, by decide⟩
  simp [ParserService.parse, ParserService.preprocess, ParserService.mapEngineErr,
    VariableHandler.hasVariables, VariableHandler.scanVar, VariableHandler.varMatchAt,
    hesc, VariableHandler.revertErrorPositions, numOr, String.toList]

/-- Lookup after inserting into an object modelled as an association
list. -/
theorem objGet_objInsert {α : Type} (m : List (Str × α)) (k k' : Str) (v : α) :
    Schema.objGet (ParserService.objInsert m k v) k'
      = if k' = k then some v else Schema.objGet m k' := by
  induction m with
  | nil =>
    by_cases h : k' = k
    · subst h
      simp [ParserService.objInsert, Schema.objGet]
    · have h2 : ¬ k = k' := fun hc => h hc.symm
      simp [ParserService.objInsert, Schema.objGet, h, h2]
  | cons p rest ih =>
    obtain ⟨k0, v0⟩ := p
    rw [ParserService.objInsert]
    by_cases h0 : k0 = k
    · rw [if_pos h0]
      by_cases hk : k0 = k'
      · have hk2 : k' = k := by rw [← hk, h0]
        simp [Schema.objGet, hk, hk2]
      · have hk2 : ¬ k' = k := fun hc => hk (by rw [h0, hc])
        simp [Schema.objGet, hk, hk2]
    · rw [if_neg h0]
      by_cases hk : k0 = k'
      · have hk2 : ¬ k' = k := fun hc => h0 (by rw [hk, hc])
        simp [Schema.objGet, hk, hk2]
      · simp [Schema.objGet, hk, ih]

/-- Lookup after one aliasStep: the name key wins, then the alias key,
then whatever the map held. -/
theorem objGet_aliasStep (m : List (Str × ContextDetector.TableReference))
    (ref : ContextDetector.TableReference) (k : Str) :
    Schema.objGet (ParserService.aliasStep m ref) k
      = if k = ref.name then some ref
        else match ref.«alias» with
          | some a => if k = a then some ref else Schema.objGet m k
          | none => Schema.objGet m k := by
  rw [ParserService.aliasStep, objGet_objInsert]
  by_cases h : k = ref.name
  · simp [h]
  · rw [if_neg h, if_neg h]
    cases ref.«alias» with
    | none => rfl
    | some a => rw [objGet_objInsert]

/-- Lookup in the alias fold equals the last matching reference, falling
back to the initial map. -/
theorem objGet_aliasFold (refs : List ContextDetector.TableReference)
    (init : List (Str × ContextDetector.TableReference)) (k : Str) :
    Schema.objGet (refs.foldl ParserService.aliasStep init) k
      = match refs.reverse.find?
          (fun r => decide (r.name = k) || decide (r.«alias» = some k)) with
        | some r => some r
        | none => Schema.objGet init k := by
  induction refs generalizing init with
  | nil => simp
  | cons r rs ih =>
    rw [List.foldl_cons, ih]
    have hrev : (r :: rs).reverse = rs.reverse ++ [r] := by simp
    rw [hrev, List.find?_append]
    cases hf : rs.reverse.find?
        (fun r => decide (r.name = k) || decide (r.«alias» = some k)) with
    | some x => simp
    | none =>
      simp only [Option.none_or, Option.none_orElse, List.find?_cons, List.find?_nil]
      rw [objGet_aliasStep]
      by_cases hn : k = r.name
      · have h1 : (decide (r.name = k) || decide (r.«alias» = some k)) = true := by
          have h0 : r.name = k := hn.symm
          simp [h0]
        rw [h1, if_pos hn]
      · have h1 : (decide (r.name = k) : Bool) = false := by
          simp only [decide_eq_false_iff_not]
          exact fun hc => hn hc.symm
        rw [if_neg hn]
        rw [h1]
        cases ha : r.«alias» with
        | none => simp
        | some a =>
          by_cases hk : k = a
          · have h3 : a = k := hk.symm
            have hra : (false || decide (some a = some k)) = true := by simp [h3]
            rw [hra]
            simp [hk]
          · have h3 : ¬ a = k := fun hc => hk hc.symm
            have hra : (false || decide (some a = some k)) = false := by simp [h3]
            rw [hra]
            simp [hk]

/-- C9: extractAliases is the in-order fold registering alias and name
keys with later references overwriting earlier ones: looking up any key
yields the last reference in the list whose alias or name (case as typed)
equals the key, and consequently every value in the map is an element of
the input list. -/
theorem C9_extractAliases_last_write_wins
    (refs : List ContextDetector.TableReference) (k : Str) :
    Schema.objGet (ParserService.extractAliases refs) k
      = refs.reverse.find?
          (fun r => decide (r.name = k) || decide (r.«alias» = some k)) ∧
    ∀ r, Schema.objGet (ParserService.extractAliases refs) k = some r → r ∈ refs := by
  have h := objGet_aliasFold refs [] k
  have hchar : Schema.objGet (ParserService.extractAliases refs) k
      = refs.reverse.find?
          (fun r => decide (r.name = k) || decide (r.«alias» = some k)) := by
    rw [ParserService.extractAliases, h]
    cases refs.reverse.find?
        (fun r => decide (r.name = k) || decide (r.«alias» = some k)) with
    | none => simp [Schema.objGet]
    | some x => simp
  refine ⟨hchar, ?_⟩
  intro r hr
  rw [hchar] at hr
  have hmem := List.mem_of_find?_eq_some hr
  exact List.mem_reverse.mp hmem

/-- Witness for C9_extractAliases_last_write_wins: one reference named
users with alias u, looked up at key u. -/
theorem C9_extractAliases_witness :
    Schema.objGet
        (ParserService.extractAliases
          [{ name := String.toList "users", «alias» := some (String.toList "u") }])
        (String.toList "u")
      = [({ name := String.toList "users",
            «alias» := some (String.toList "u") } : ContextDetector.TableReference)].reverse.find?
          (fun r => decide (r.name = String.toList "u")
            || decide (r.«alias» = some (String.toList "u"))) ∧
    ∀ r, Schema.objGet
        (ParserService.extractAliases
          [{ name := String.toList "users", «alias» := some (String.toList "u") }])
        (String.toList "u") = some r →
      r ∈ [({ name := String.toList "users",
              «alias» := some (String.toList "u") } : ContextDetector.TableReference)] :=
  C9_extractAliases_last_write_wins
    [{ name := String.toList "users", «alias» := some (String.toList "u") }]
    (String.toList "u")

/-! ## Autocomplete engine and providers
(src/unnamed/part_016, packages/core/src/autocomplete/providers) -/

namespace Autocomplete

open ContextDetector (SQLContext SQLContextType TableReference Position)

/-- Completion kinds (types/autocomplete.ts). -/
inductive CompletionType where
  | table | column | keyword | function | «alias» | database | snippet | custom
deriving DecidableEq, Repr

/-- Completion item; the nested metadata payload is omitted (no modelled
code path reads it back). -/
structure Completion where
  label : Str
  type : CompletionType
  detail : Option Str := none
  documentation : Option Str := none
  insertText : Option Str := none
  sortPriority : Option Nat := none
  filterText : Option Str := none
  score : Option ℚ := none
deriving DecidableEq, Repr

/-- Autocomplete options and their defaults (types/autocomplete.ts). -/
structure AutocompleteOptions where
  enabled : Bool
  triggerCharacters : List Str
  debounceMs : Nat
  maxSuggestions : Nat
  fuzzyMatch : Bool
  minCharacters : Nat
  caseSensitive : Bool
deriving DecidableEq, Repr

def DEFAULT_AUTOCOMPLETE_OPTIONS : AutocompleteOptions :=
  { enabled := true,
    triggerCharacters := [['.'], [' ']],
    debounceMs := 150,
    maxSuggestions := 50,
    fuzzyMatch := true,
    minCharacters := 0,
    caseSensitive := false }

/-- Truthy string-or: the JavaScript idiom a-or-b where the empty string
falls through. -/
def strOr (a : Option Str) (b : Str) : Str :=
  match a with
  | some x => if x.isEmpty then b else x
  | none => b

/-- Model of ColumnCompletionProvider.canProvide. -/
def columnCanProvide (ctx : SQLContext) : Bool :=
  decide (ctx.type = .select_list) || decide (ctx.type = .where_clause)
  || decide (ctx.type = .group_by) || decide (ctx.type = .order_by)
  || decide (ctx.type = .having_clause) || ctx.afterDot

/-- Documentation text of a column completion: the column's comment, or
the fallback Column: table.column. -/
def columnDoc (comment : Option Str) (tableName colName : Str) : Str :=
  strOr comment (String.toList "Column: " ++ tableName ++ ['.'] ++ colName)

/-- Model of ColumnCompletionProvider.provide. -/
def columnProvide (opts : Schema.SchemaOptions) (schema : Schema.SchemaDefinition)
    (ctx : SQLContext) : List Completion :=
  match ctx.afterDot, ctx.dotPrefix with
  | true, some dp =>
    if dp.isEmpty then []
    else
      match ContextDetector.resolveAlias dp ctx.availableTables with
      | some table =>
        (Schema.getColumns opts schema table.name table.database).map (fun col =>
          { label := col.name,
            type := .column,
            detail := some (col.type
              ++ (if col.nullable = some false then String.toList " NOT NULL" else [])),
            documentation := some (columnDoc col.comment table.name col.name),
            sortPriority := some 0 })
      | none => []
  | _, _ =>
    (ctx.availableTables.map (fun tableRef =>
      (Schema.getColumns opts schema tableRef.name tableRef.database).map (fun col =>
        { label := col.name,
          type := .column,
          detail := some (strOr tableRef.«alias» tableRef.name ++ ['.'] ++ col.name
            ++ String.toList " (" ++ col.type ++ [')']),
          documentation := some (columnDoc col.comment tableRef.name col.name),
          insertText := some (strOr tableRef.«alias» tableRef.name ++ ['.'] ++ col.name),
          sortPriority := some 2 }))).flatten

/-- Model of TableCompletionProvider. -/
def tableCanProvide (ctx : SQLContext) : Bool :=
  (decide (ctx.type = .from_clause) || decide (ctx.type = .join_clause)) && !ctx.afterDot

def tableProvide (schema : Schema.SchemaDefinition) : List Completion :=
  (Schema.getAllTables schema).map (fun table =>
    { label := table.name,
      type := .table,
      detail := some (if table.database.isEmpty then table.name
        else table.database ++ ['.'] ++ table.name),
      documentation := some (strOr table.comment (String.toList "Table: " ++ table.name)),
      sortPriority := some 1 })

/-- The fixed keyword vocabulary of KeywordCompletionProvider. -/
def SQL_KEYWORDS : List Str :=
  ["SELECT", "FROM", "WHERE", "GROUP BY", "HAVING", "ORDER BY",
   "LIMIT", "OFFSET",
   "JOIN", "INNER JOIN", "LEFT JOIN", "RIGHT JOIN", "FULL JOIN",
   "CROSS JOIN", "ON", "USING",
   "UNION", "UNION ALL", "INTERSECT", "EXCEPT",
   "INSERT INTO", "UPDATE", "DELETE FROM", "VALUES", "SET",
   "CREATE TABLE", "ALTER TABLE", "DROP TABLE",
   "CREATE INDEX", "DROP INDEX",
   "AND", "OR", "NOT", "IN", "BETWEEN", "LIKE", "IS NULL", "IS NOT NULL",
   "EXISTS", "ANY", "ALL",
   "DISTINCT", "AS",
   "ASC", "DESC"].map String.toList

/-- Model of KeywordCompletionProvider.getContextKeywords. -/
def getContextKeywords (ctx : SQLContext) : List Str :=
  match ctx.type with
  | .select_list => ["DISTINCT", "AS", "FROM"].map String.toList
  | .from_clause => ["JOIN", "INNER JOIN", "LEFT JOIN", "RIGHT JOIN", "WHERE"].map String.toList
  | .where_clause => ["AND", "OR", "GROUP BY", "ORDER BY", "LIMIT"].map String.toList
  | .join_clause => ["ON", "USING", "AND"].map String.toList
  | .group_by => ["HAVING", "ORDER BY"].map String.toList
  | .order_by => ["ASC", "DESC", "LIMIT"].map String.toList
  | _ => []

def keywordCanProvide (ctx : SQLContext) : Bool :=
  !ctx.afterDot

def keywordProvide (ctx : SQLContext) : List Completion :=
  SQL_KEYWORDS.map (fun kw =>
    { label := kw, type := .keyword,
      detail := some (String.toList "SQL Keyword"), sortPriority := some 5 })
  ++ (getContextKeywords ctx).map (fun kw =>
    { label := kw, type := .keyword,
      detail := some (String.toList "SQL Keyword"), sortPriority := some 3 })

/-- The fixed function vocabulary of FunctionCompletionProvider:
name, argument template, description. -/
def SQL_FUNCTIONS : List (Str × Str × Str) :=
  [("COUNT", "column", "Count rows or non-null values"),
   ("SUM", "column", "Calculate sum of values"),
   ("AVG", "column", "Calculate average of values"),
   ("MIN", "column", "Find minimum value"),
   ("MAX", "column", "Find maximum value"),
   ("CONCAT", "str1, str2, ...", "Concatenate strings"),
   ("SUBSTRING", "str, start, length", "Extract substring"),
   ("UPPER", "str", "Convert to uppercase"),
   ("LOWER", "str", "Convert to lowercase"),
   ("TRIM", "str", "Remove leading/trailing spaces"),
   ("LENGTH", "str", "Get string length"),
   ("NOW", "", "Current date and time"),
   ("CURDATE", "", "Current date"),
   ("DATE_ADD", "date, INTERVAL value unit", "Add interval to date"),
   ("DATE_SUB", "date, INTERVAL value unit", "Subtract interval from date"),
   ("DATEDIFF", "date1, date2", "Difference between dates"),
   ("ROUND", "number, decimals", "Round number"),
   ("FLOOR", "number", "Round down"),
   ("CEIL", "number", "Round up"),
   ("ABS", "number", "Absolute value"),
   ("COALESCE", "value1, value2, ...", "Return first non-null value"),
   ("NULLIF", "value1, value2", "Return null if values are equal"),
   ("IFNULL", "value, default", "Return default if value is null"),
   ("CASE", "WHEN condition THEN result ... END", "Conditional expression")].map
    (fun t => (t.1.toList, t.2.1.toList, t.2.2.toList))

def functionCanProvide (ctx : SQLContext) : Bool :=
  (decide (ctx.type = .select_list) || decide (ctx.type = .where_clause)
    || decide (ctx.type = .having_clause) || decide (ctx.type = .order_by)
    || decide (ctx.type = .function)) && !ctx.afterDot

def functionProvide : List Completion :=
  SQL_FUNCTIONS.map (fun f =>
    { label := f.1,
      type := .function,
      detail := some (f.1 ++ ['('] ++ f.2.1 ++ [')']),
      documentation := some (f.2.2),
      insertText := some (f.1 ++ ['(']
        ++ (if f.2.1.isEmpty then [] else String.toList "$1") ++ [')']),
      sortPriority := some 4 })

/-- The default provider list in registration order: column, table,
function, keyword (registerDefaultProviders). -/
def providerCompletions (opts : Schema.SchemaOptions) (schema : Schema.SchemaDefinition)
    (ctx : SQLContext) : List Completion :=
  (if columnCanProvide ctx then columnProvide opts schema ctx else [])
  ++ (if tableCanProvide ctx then tableProvide schema else [])
  ++ (if functionCanProvide ctx then functionProvide else [])
  ++ (if keywordCanProvide ctx then keywordProvide ctx else [])

/-- Lexicographic code-point order on labels, the model of the default
localeCompare on the ASCII labels this code produces. -/
def lexLt : Str → Str → Bool
  | [], [] => false
  | [], _ :: _ => true
  | _ :: _, [] => false
  | a :: as, b :: bs => if a < b then true else if b < a then false else lexLt as bs

/-- The comparator of sortByPriority as a strict-before test: priority
ascending (99 for missing), then label order. -/
def prioLt (a b : Completion) : Bool :=
  decide (a.sortPriority.getD 99 < b.sortPriority.getD 99)
  || (decide (a.sortPriority.getD 99 = b.sortPriority.getD 99) && lexLt a.label b.label)

def sortByPriority (completions : List Completion) : List Completion :=
  sortStable prioLt completions

/-- The comparator of the fuzzy ranking as a strict-before test: score
descending, then priority ascending. -/
def scoreLt (a b : Completion) : Bool :=
  decide (b.score.getD 0 < a.score.getD 0)
  || (decide (a.score.getD 0 = b.score.getD 0)
      && decide (a.sortPriority.getD 99 < b.sortPriority.getD 99))

def normCase (caseSensitive : Bool) (s : Str) : Str :=
  if caseSensitive then s else s.map Char.toLower

/-- Model of AutocompleteEngine.filterAndRank. -/
def filterAndRank (options : AutocompleteOptions) (completions : List Completion)
    (query : Str) : List Completion :=
  if query.isEmpty && !options.fuzzyMatch then sortByPriority completions
  else if options.fuzzyMatch && !query.isEmpty then
    let withScores := completions.map (fun c =>
      { c with score := some (fuzzyMatch query (strOr c.filterText c.label)
          options.caseSensitive) })
    let filtered := withScores.filter (fun c => decide (0 < c.score.getD 0))
    sortStable scoreLt filtered
  else if !query.isEmpty then
    sortByPriority (completions.filter (fun c =>
      (normCase options.caseSensitive query).isPrefixOf
        (normCase options.caseSensitive c.label)))
  else sortByPriority completions

/-- Model of AutocompleteEngine.getSuggestions, with the grammar engine as
an oracle (the internal ParserService is constructed with default options,
so embedded variables are disabled and the shared regex state is never
touched). -/
def getSuggestions (options : AutocompleteOptions) (engine : ParserService.Engine)
    (schemaOpts : Schema.SchemaOptions) (schema : Schema.SchemaDefinition)
    (sql : Str) (pos : Position) : List Completion :=
  if !options.enabled then []
  else
    let parseResult := (ParserService.parse false engine 0 sql).1
    let context := ContextDetector.detectContext sql pos parseResult.tableRefs
    if 0 < options.minCharacters
        ∧ context.currentToken.length < options.minCharacters
        ∧ !context.afterDot then []
    else
      (filterAndRank options (providerCompletions schemaOpts schema context)
        context.currentToken).take options.maxSuggestions

end Autocomplete

/-- Engine oracle for the C6 scenario: the grammar AST for SELECT u.
carries one table node users aliased u (the spec fixes the parse's
tableRefs as users with alias u; the regex fallback finds nothing in
SELECT u.), and validate reports no errors. -/
def c6Engine : ParserService.Engine :=
  ⟨fun _ => Except.ok (ParserService.Node.obj
      [(String.toList "type", ParserService.Node.str (String.toList "table")),
       (String.toList "table", ParserService.Node.str (String.toList "users")),
       (String.toList "as", ParserService.Node.str (String.toList "u"))]),
   fun _ => Except.ok []⟩

/-- Catalog for the C6 scenario: one database with table users holding
columns id and username. -/
def c6Schema : Schema.SchemaDefinition :=
  ⟨[(String.toList "main",
     { tables := [(String.toList "users",
        { columns := [(String.toList "id", { type := String.toList "int" }),
                      (String.toList "username", { type := String.toList "varchar" })] })] })]⟩

/-- C6: with a catalog containing table users with columns id and
username, getSuggestions on SELECT u. with the cursor at its end returns
exactly the completions id and username with type column, and zero
completions of type keyword (keywords are suppressed after a dot). The
grammar engine's table reference for the statement is the spec's stated
users-aliased-u. -/
theorem C6_dot_completions :
    ((Autocomplete.getSuggestions Autocomplete.DEFAULT_AUTOCOMPLETE_OPTIONS c6Engine
        Schema.DEFAULT_SCHEMA_OPTIONS c6Schema (String.toList "SELECT u.") ⟨0, 9⟩).map
        (fun c => (c.label, c.type))
      = [(String.toList "id", Autocomplete.CompletionType.column),
         (String.toList "username", Autocomplete.CompletionType.column)]) ∧
    ((Autocomplete.getSuggestions Autocomplete.DEFAULT_AUTOCOMPLETE_OPTIONS c6Engine
        Schema.DEFAULT_SCHEMA_OPTIONS c6Schema (String.toList "SELECT u.") ⟨0, 9⟩).filter
        (fun c => decide (c.type = Autocomplete.CompletionType.keyword))).length = 0 := by
  decide

/-! ## Validator service and rules (src/unnamed/part_007) -/

namespace ValidatorService

/-- A registered validation rule, modelled by the outcome of its validate
call on the accumulated error list (text and catalog are fixed by the
scenario), plus the enabled flag of its configuration. The loop runs a
rule only when enabled is literally true (undefined and false are both
falsy). -/
structure RuleConfig where
  run : List ParseError → Except JsErr (List ParseError)
  enabled : Option Bool := none

/-- Tagging of parse errors with type syntax when appended. -/
def tagSyntax (e : ParseError) : ParseError := { e with type := some ErrType.syntaxErr }

/-- The custom-validator loop: results are appended in registration
order; a thrown exception propagates (there is no try/catch around this
loop, only the function-level one). Each validator is modelled by the
outcome of its validate call on the scenario's text, AST and catalog. -/
def runValidators : List ParseError → List (Except JsErr (List ParseError)) →
    Except JsErr (List ParseError)
  | acc, [] => Except.ok acc
  | acc, v :: vs =>
    match v with
    | .ok es => runValidators (acc ++ es) vs
    | .error e => .error e

/-- Defaulting of a freshly appended rule error lacking a type. -/
def typeDefault (e : ParseError) : ParseError :=
  if e.type = none then { e with type := some ErrType.custom } else e

/-- The rule loop: disabled rules are skipped, a rule receives the errors
accumulated so far, its results are appended with the type default, and a
thrown rule exception is caught and logged without aborting the rest. -/
def ruleLoop : List ParseError → List RuleConfig → List ParseError
  | errors, [] => errors
  | errors, rc :: rest =>
    if rc.enabled = some true then
      match rc.run errors with
      | .ok ruleErrors => ruleLoop (errors ++ ruleErrors.map typeDefault) rest
      | .error _ => ruleLoop errors rest
    else ruleLoop errors rest

structure ValidationResult where
  valid : Bool
  errors : List ParseError
deriving DecidableEq, Repr

/-- Model of ValidatorService.validate: parse (which never throws), tag
parse errors syntax, run the validators (unprotected), then the rules
(each protected); a validator exception reaches the function-level catch,
which discards everything accumulated and returns a single syntax-type
error. -/
def validate (engine : ParserService.Engine) (sql : Str)
    (validators : List (Except JsErr (List ParseError)))
    (rules : List RuleConfig) : ValidationResult :=
  let parseResult := (ParserService.parse false engine 0 sql).1
  let base := parseResult.errors.map tagSyntax
  match runValidators base validators with
  | .error e =>
    ⟨false, [{ message := e.msgOr (String.toList "Unknown validation error"),
               severity := .error, type := some ErrType.syntaxErr }]⟩
  | .ok errs =>
    let final := ruleLoop errs rules
    ⟨final.isEmpty, final⟩

/-- Model of BaseValidationRule.createError for the built-in rules, which
pass no position. -/
def createError (message : Str) (t : ErrType) : ParseError :=
  { message := message, severity := .error, type := some t }

/-- Model of PerformanceValidationRule.validate. -/
def performanceValidate (sql : Str) (_existing : List ParseError) : List ParseError :=
  (if decide (String.toList "SELECT *" <:+: sql)
      && !decide (String.toList "LIMIT" <:+: sql) then
    [createError
      (String.toList "Consider using LIMIT with SELECT * to avoid performance issues")
      ErrType.custom]
  else [])
  ++ (if decide (String.toList "FROM" <:+: sql)
      && !decide (String.toList "WHERE" <:+: sql)
      && !decide (String.toList "LIMIT" <:+: sql) then
    [createError
      (String.toList "Consider adding WHERE clause or LIMIT to avoid scanning entire table")
      ErrType.custom]
  else [])

/-- Match attempt of the schema rule's regex FROM whitespace-plus
word-plus at the head of the input. -/
def fromNameAt (cs : Str) : Option (Str × Nat) :=
  if ContextDetector.caseInsPrefix ContextDetector.kwFROM cs then
    match ParserService.wsWordAfter (cs.drop 4) with
    | some (w, n) => some (w, 4 + n)
    | none => none
  else none

/-- Global scan of the schema rule's regex collecting the captured table
names. -/
def scanFromNames : Nat → Str → List Str
  | 0, _ => []
  | _ + 1, [] => []
  | fuel + 1, c :: cs =>
    match fromNameAt (c :: cs) with
    | some (w, n) => w :: scanFromNames fuel ((c :: cs).drop (max n 1))
    | none => scanFromNames fuel cs

/-- Model of SchemaValidationRule.validate: without a schema no checks;
otherwise every FROM-referenced name absent from the catalog yields a
semantic error. -/
def schemaValidate (opts : Schema.SchemaOptions) (schema : Option Schema.SchemaDefinition)
    (sql : Str) (_existing : List ParseError) : List ParseError :=
  match schema with
  | none => []
  | some sch =>
    ((scanFromNames sql.length sql).filter
      (fun name => (Schema.getTable opts sch name none).isNone)).map
      (fun name => createError
        (String.toList "Table '" ++ name ++ String.toList "' does not exist in schema")
        ErrType.semantic)

/-- All-ok validator lists append their results in order. -/
theorem runValidators_all_ok (vlists : List (List ParseError)) :
    ∀ acc, runValidators acc (vlists.map Except.ok) = Except.ok (acc ++ vlists.flatten) := by
  induction vlists with
  | nil => intro acc; simp [runValidators]
  | cons v vs ih =>
    intro acc
    simp only [List.map_cons, runValidators, List.flatten_cons]
    rw [ih (acc ++ v), List.append_assoc]

/-- The rule loop only appends: the incoming errors stay a prefix. -/
theorem ruleLoop_prefix (rules : List RuleConfig) :
    ∀ errors, errors <+: ruleLoop errors rules := by
  induction rules with
  | nil => intro errors; simp [ruleLoop]
  | cons rc rest ih =>
    intro errors
    rw [ruleLoop]
    by_cases he : rc.enabled = some true
    · rw [if_pos he]
      cases hr : rc.run errors with
      | ok es => exact (List.prefix_append _ _).trans (ih _)
      | error e => exact ih errors
    · rw [if_neg he]
      exact ih errors

/-- A rule whose validate call always throws is a no-op in the loop. -/
theorem ruleLoop_throwing_skipped (r : RuleConfig)
    (hthrow : ∀ errs, ∃ e, r.run errs = Except.error e)
    (rules1 rules2 : List RuleConfig) :
    ∀ errors, ruleLoop errors (rules1 ++ r :: rules2) = ruleLoop errors (rules1 ++ rules2) := by
  induction rules1 with
  | nil =>
    intro errors
    simp only [List.nil_append]
    rw [ruleLoop]
    by_cases he : r.enabled = some true
    · rw [if_pos he]
      obtain ⟨e, hre⟩ := hthrow errors
      rw [hre]
    · rw [if_neg he]
  | cons rc rest ih =>
    intro errors
    simp only [List.cons_append]
    rw [ruleLoop, ruleLoop]
    by_cases he : rc.enabled = some true
    · rw [if_pos he, if_pos he]
      cases hr : rc.run errors with
      | ok es => exact ih _
      | error e => exact ih errors
    · rw [if_neg he, if_neg he]
      exact ih errors

end ValidatorService

/-- C2 (amended): a thrown RULE is isolated, a thrown validator is not.
For every engine, text, sequence of custom validators none of which
throws, and rule list containing a rule whose validate call throws, the
throwing rule changes nothing: validate returns the same result as
without that rule, and the parse errors (tagged syntax) followed by every
validator's errors in registration order remain a prefix of the returned
error list. The original claim, that a thrown custom validator is also
isolated, is refuted by C2_validator_throw_counterexample. -/
theorem C2_rule_isolation_amended (engine : ParserService.Engine) (sql : Str)
    (vlists : List (List ParseError))
    (rules1 rules2 : List ValidatorService.RuleConfig)
    (r : ValidatorService.RuleConfig)
    (hthrow : ∀ errs, ∃ e, r.run errs = Except.error e) :
    ValidatorService.validate engine sql (vlists.map Except.ok) (rules1 ++ r :: rules2)
      = ValidatorService.validate engine sql (vlists.map Except.ok) (rules1 ++ rules2) ∧
    (((ParserService.parse false engine 0 sql).1.errors.map ValidatorService.tagSyntax)
        ++ vlists.flatten) <+:
      (ValidatorService.validate engine sql (vlists.map Except.ok)
        (rules1 ++ r :: rules2)).errors := by
  have hrun := ValidatorService.runValidators_all_ok vlists
    (((ParserService.parse false engine 0 sql).1.errors.map ValidatorService.tagSyntax))
  constructor
  · rw [ValidatorService.validate, ValidatorService.validate, hrun]
    simp only [ValidatorService.ruleLoop_throwing_skipped r hthrow rules1 rules2]
  · rw [ValidatorService.validate, hrun]
    show _ <+: ValidatorService.ruleLoop _ (rules1 ++ r :: rules2)
    exact ValidatorService.ruleLoop_prefix _ _

/-- Witness for C2_rule_isolation_amended: a trivial engine, one
validator returning one custom error, and a single always-throwing
enabled rule. -/
theorem C2_rule_isolation_witness :
    ValidatorService.validate
        ⟨fun _ => Except.ok ParserService.Node.nul, fun _ => Except.ok []⟩
        (String.toList "SELECT 1")
        ([[ValidatorService.createError (String.toList "other") ErrType.custom]].map Except.ok)
        ([] ++ (⟨fun _ => Except.error ⟨true, String.toList "rule boom"⟩, some true⟩ : ValidatorService.RuleConfig) :: [])
      = ValidatorService.validate
        ⟨fun _ => Except.ok ParserService.Node.nul, fun _ => Except.ok []⟩
        (String.toList "SELECT 1")
        ([[ValidatorService.createError (String.toList "other") ErrType.custom]].map Except.ok)
        ([] ++ []) ∧
    (((ParserService.parse false
        ⟨fun _ => Except.ok ParserService.Node.nul, fun _ => Except.ok []⟩
        0 (String.toList "SELECT 1")).1.errors.map ValidatorService.tagSyntax)
        ++ [[ValidatorService.createError (String.toList "other") ErrType.custom]].flatten) <+:
      (ValidatorService.validate
        ⟨fun _ => Except.ok ParserService.Node.nul, fun _ => Except.ok []⟩
        (String.toList "SELECT 1")
        ([[ValidatorService.createError (String.toList "other") ErrType.custom]].map Except.ok)
        ([] ++ (⟨fun _ => Except.error ⟨true, String.toList "rule boom"⟩, some true⟩ : ValidatorService.RuleConfig) :: [])).errors :=
  C2_rule_isolation_amended
    ⟨fun _ => Except.ok ParserService.Node.nul, fun _ => Except.ok []⟩
    (String.toList "SELECT 1")
    [[ValidatorService.createError (String.toList "other") ErrType.custom]]
    [] []
    ⟨fun _ => Except.error ⟨true, String.toList "rule boom"⟩, some true⟩
    (fun _ => ⟨⟨true, String.toList "rule boom"⟩, rfl⟩)

/-- C2 counterexample: one throwing custom validator suppresses the
results of the rest. With a first validator that throws an Error with
message boom and a second that returns an error, validate returns only
the single synthetic syntax error; the second validator's error is not in
the result. -/
theorem C2_validator_throw_counterexample :
    ValidatorService.validate
        ⟨fun _ => Except.ok ParserService.Node.nul, fun _ => Except.ok []⟩
        (String.toList "SELECT 1")
        [Except.error ⟨true, String.toList "boom"⟩,
         Except.ok [ValidatorService.createError (String.toList "other") ErrType.custom]]
        []
      = ⟨false, [{ message := String.toList "boom", severity := .error,
                   type := some ErrType.syntaxErr }]⟩ ∧
    ¬ ValidatorService.createError (String.toList "other") ErrType.custom
        ∈ (ValidatorService.validate
          ⟨fun _ => Except.ok ParserService.Node.nul, fun _ => Except.ok []⟩
          (String.toList "SELECT 1")
          [Except.error ⟨true, String.toList "boom"⟩,
           Except.ok [ValidatorService.createError (String.toList "other") ErrType.custom]]
          []).errors := by
  decide

/-- Catalog for the C8 scenario: one database with table users; it
contains no table named nonexistent. -/
def c8Schema : Schema.SchemaDefinition :=
  ⟨[(String.toList "main",
     { tables := [(String.toList "users",
        { columns := [(String.toList "id", { type := String.toList "int" })] })] })]⟩

/-- C8: with the performance rule enabled, validating SELECT * FROM users
yields at least one error of type custom whose message mentions LIMIT;
with the schema rule enabled and a catalog lacking a table named
nonexistent, validating SELECT * FROM nonexistent yields at least one
error of type semantic. Both hold for every behavior of the external
grammar engine. -/
theorem C8_builtin_rules (engine : ParserService.Engine) :
    (∃ err ∈ (ValidatorService.validate engine (String.toList "SELECT * FROM users") []
        [⟨fun errs => Except.ok
            (ValidatorService.performanceValidate (String.toList "SELECT * FROM users") errs),
          some true⟩]).errors,
      err.type = some ErrType.custom ∧ String.toList "LIMIT" <:+: err.message) ∧
    (∃ err ∈ (ValidatorService.validate engine (String.toList "SELECT * FROM nonexistent") []
        [⟨fun errs => Except.ok
            (ValidatorService.schemaValidate Schema.DEFAULT_SCHEMA_OPTIONS (some c8Schema)
              (String.toList "SELECT * FROM nonexistent") errs),
          some true⟩]).errors,
      err.type = some ErrType.semantic) := by
  constructor
  · have hperf : ∀ errs : List ParseError,
        ValidatorService.performanceValidate (String.toList "SELECT * FROM users") errs
          = [ValidatorService.createError
              (String.toList "Consider using LIMIT with SELECT * to avoid performance issues")
              ErrType.custom,
             ValidatorService.createError
              (String.toList "Consider adding WHERE clause or LIMIT to avoid scanning entire table")
              ErrType.custom] := fun _ => rfl
    rw [ValidatorService.validate]
    rw [show ValidatorService.runValidators
        (((ParserService.parse false engine 0 (String.toList "SELECT * FROM users")).1.errors.map
          ValidatorService.tagSyntax)) [] = Except.ok _ from rfl]
    refine ⟨ValidatorService.createError
      (String.toList "Consider using LIMIT with SELECT * to avoid performance issues")
      ErrType.custom, ?_, by decide, by decide⟩
    show _ ∈ ValidatorService.ruleLoop _ _
    rw [ValidatorService.ruleLoop, if_pos rfl]
    simp only [hperf]
    rw [ValidatorService.ruleLoop]
    refine List.mem_append_right _ ?_
    simp [ValidatorService.typeDefault, ValidatorService.createError]
  · have hschema : ∀ errs : List ParseError,
        ValidatorService.schemaValidate Schema.DEFAULT_SCHEMA_OPTIONS (some c8Schema)
          (String.toList "SELECT * FROM nonexistent") errs
          = [ValidatorService.createError
              (String.toList "Table 'nonexistent' does not exist in schema")
              ErrType.semantic] := fun _ => rfl
    rw [ValidatorService.validate]
    rw [show ValidatorService.runValidators
        (((ParserService.parse false engine 0
          (String.toList "SELECT * FROM nonexistent")).1.errors.map
          ValidatorService.tagSyntax)) [] = Except.ok _ from rfl]
    refine ⟨ValidatorService.createError
      (String.toList "Table 'nonexistent' does not exist in schema")
      ErrType.semantic, ?_, by decide⟩
    show _ ∈ ValidatorService.ruleLoop _ _
    rw [ValidatorService.ruleLoop, if_pos rfl]
    simp only [hschema]
    rw [ValidatorService.ruleLoop]
    refine List.mem_append_right _ ?_
    simp [ValidatorService.typeDefault, ValidatorService.createError]
